import Mathlib

/-!
# Verification of tasker's job-specification model and lifecycle engine

A shallow embedding of the tasker repository (`src/config.rs`,
`src/launchctl.rs`, `src/utils.rs`) in Lean 4, together with theorems
settling the spec claims about it.

Modelling conventions:

* Machine integers `i64`/`i32` are modelled as `Int` with explicit bound
  constants where the source checks bounds.
* `serde_yaml` text parsing/serialization is modelled at the document
  level: a YAML document that parses into the Rust `Configuration`
  struct is represented directly by a `Configuration` value (the serde
  round-trip of the derived Serialize/Deserialize pair is taken as
  faithful).  Schema-level failures (unknown keys, shape mismatches)
  are therefore out of scope here.
* `BTreeMap<String, _>` payloads are modelled as association lists.
* Filesystem paths are lists of components (`Path := List String`),
  rooted at `/`.  The mutable filesystem, the external `launchctl`
  registry and a log of the external load/unload verb invocations are
  collected in a `World` record; operations are explicit state-passing
  functions `World → Outcome α × World`.
* Error message strings carried by the Rust `Error` variants are not
  modelled; only the variant (constructor) is.
* A Rust `panic!`/`unwrap` failure is a distinct `Outcome.panicked`
  result, never an `Outcome.err`.
-/

namespace Tasker

/-! ## Constants (src/lib.rs) -/

def TASKER_TASK_NAME : String := "com.tasker.tasks"

def TASK_ROOT_ALIAS : String := "~root~/"

def STD_OUT_FILE : String := "stdout.log"

def STD_ERR_FILE : String := "stderr.log"

/-- `i64::MAX` -/
def i64Max : Int := 9223372036854775807

/-! ## Error type (src/error.rs plus the variants used by launchctl.rs / utils.rs);
message payloads are not modelled. -/

inductive Err where
  | YamlError
  | ConfigRangeError
  | ConfigPathError
  | ConfigLabelError
  | ConfigProgramError
  | LaunchctlListError
  | DecompressionError
  | RenameError
  | NonUtfError
  | FailedToLoadTask
  | TaskDoesNotExist
  | FailedToUnloadTask
  | WrongLabelInYaml
  | FailedToReplaceRootAlias
  | ErrorMoveYamlToMeta
  | FailedToUpdateMetaYaml
  | ErrorCreatingPlist
  | FailedToReadMetaFolder
  | FailedToFindYamlInMeta
  | ErrorCreatingFolder
  | NoFileToDelete
  | CommandExecutionError
  | FailedToChown
  | PathDoesNotExist
  | FailedToRemoveFolder
  | CopyError
  | IoError
deriving DecidableEq

/-- Is the result an error? -/
def isErr {α : Type} : Except Err α → Bool
  | .error _ => true
  | .ok _ => false

/-! ## String helpers

String manipulation is done on the underlying character lists so that the
relevant algebraic lemmas are available. -/

/-- Drop the first `n` characters of a string. -/
def strDrop (n : Nat) (s : String) : String := ⟨s.data.drop n⟩

/-- `p` is a prefix of `s` (Rust `str::starts_with`). -/
def strStarts (p s : String) : Bool := p.data.isPrefixOf s.data

/-- `pat` occurs as a substring of `s` (Rust `str::contains`): `pat` is a
prefix of some suffix of `s`. -/
def strContains (s pat : String) : Bool :=
  s.data.tails.any (fun t => pat.data.isPrefixOf t)

/-- Split a character list at every occurrence of a separator predicate
(keeping empty segments, like Rust `str::split`). -/
def splitChars (p : Char → Bool) : List Char → List (List Char)
  | [] => [[]]
  | c :: rest =>
    let r := splitChars p rest
    if p c then [] :: r
    else
      match r with
      | h :: t => (c :: h) :: t
      | [] => [[c]]

/-- Character class `[A-Za-z0-9_]` of the label regex. -/
def isWordChar (c : Char) : Bool := c.isAlphanum || c == '_'

/-- The label regex `^[A-Za-z0-9_]+(\.[A-Za-z0-9_]+)*$` (config.rs
`LABEL_REG`): the string splits on `.` into nonempty all-word-char
segments (the empty string yields one empty segment and is rejected). -/
def is_valid_label (s : String) : Bool :=
  (splitChars (fun c => c == '.') s.data).all
    (fun seg => !seg.isEmpty && seg.all isWordChar)

/-! ## Job specification model (src/config.rs) -/

/-- `AliveCondition` (config.rs). -/
structure AliveCondition where
  successful_exit : Option Bool
  other_job_enabled : Option (List (String × Bool))
  crashed : Option Bool
deriving DecidableEq

/-- `CalendarInterval` (config.rs): each field optional, `i64`. -/
structure CalendarInterval where
  minute : Option Int
  hour : Option Int
  day : Option Int
  weekday : Option Int
  month : Option Int
deriving DecidableEq

/-- `ResourceLimit` (config.rs). -/
structure ResourceLimit where
  cpu : Option Int
  file_size : Option Int
  number_of_files : Option Int
  number_of_processes : Option Int
  resident_set_size : Option Int
  stack : Option Int
deriving DecidableEq

/-- The closed set of option kinds (config.rs `enum Config`). -/
inductive Config where
  | ProgramArguments (args : List String)
  | EnvironmentVariables (env : List (String × String))
  | KeepAlive (cond : AliveCondition)
  | RunAtLoad (b : Bool)
  | WorkingDirectory (p : String)
  | UserName (s : String)
  | GroupName (s : String)
  | RootDirectory (p : String)
  | ExitTimeOut (t : Int)
  | StartInterval (t : Int)
  | StartCalendarInterval (cals : List CalendarInterval)
  | StandardInPath (p : String)
  | StandardOutPath (p : String)
  | StandardErrorPath (p : String)
  | SoftResourceLimit (r : ResourceLimit)
  | HardResourceLimits (r : ResourceLimit)
deriving DecidableEq

/-- The strum `Display` derive on `Config` yields the variant name; it is
the upsert key used by `add_config` / `remove_config`. -/
def Config.kindName : Config → String
  | .ProgramArguments _ => "ProgramArguments"
  | .EnvironmentVariables _ => "EnvironmentVariables"
  | .KeepAlive _ => "KeepAlive"
  | .RunAtLoad _ => "RunAtLoad"
  | .WorkingDirectory _ => "WorkingDirectory"
  | .UserName _ => "UserName"
  | .GroupName _ => "GroupName"
  | .RootDirectory _ => "RootDirectory"
  | .ExitTimeOut _ => "ExitTimeOut"
  | .StartInterval _ => "StartInterval"
  | .StartCalendarInterval _ => "StartCalendarInterval"
  | .StandardInPath _ => "StandardInPath"
  | .StandardOutPath _ => "StandardOutPath"
  | .StandardErrorPath _ => "StandardErrorPath"
  | .SoftResourceLimit _ => "SoftResourceLimit"
  | .HardResourceLimits _ => "HardResourceLimits"

/-- `Configuration` (config.rs): label, program, ordered option list. -/
structure Configuration where
  label : String
  program : String
  configuration : List Config
deriving DecidableEq

/-- The filesystem predicates consulted by validation
(`Path::is_file` / `Path::is_dir`). -/
structure PathChecks where
  is_file : String → Bool
  is_dir : String → Bool

/-- `check_range_return_err!` (config.rs): error iff `i < lo || i > hi`. -/
def check_range (lo hi i : Int) : Except Err Unit :=
  if i < lo ∨ i > hi then .error .ConfigRangeError else .ok ()

/-- `check_option_range_return_err!`: check only when the field is set. -/
def check_option_range (lo hi : Int) : Option Int → Except Err Unit
  | none => .ok ()
  | some i => check_range lo hi i

/-- `CalendarInterval::check`: minute 0–59, hour 0–23, day 1–31,
weekday 0–7, month 1–12, first violation wins; returns `self`. -/
def CalendarInterval.check (c : CalendarInterval) : Except Err CalendarInterval :=
  match check_option_range 0 59 c.minute with
  | .error e => .error e
  | .ok _ =>
  match check_option_range 0 23 c.hour with
  | .error e => .error e
  | .ok _ =>
  match check_option_range 1 31 c.day with
  | .error e => .error e
  | .ok _ =>
  match check_option_range 0 7 c.weekday with
  | .error e => .error e
  | .ok _ =>
  match check_option_range 1 12 c.month with
  | .error e => .error e
  | .ok _ => .ok c

/-- `ResourceLimit::check`: process count 0–500, stack 0–67104768, the
rest 0–`i64::MAX`; returns `self`. -/
def ResourceLimit.check (r : ResourceLimit) : Except Err ResourceLimit :=
  match check_option_range 0 i64Max r.file_size with
  | .error e => .error e
  | .ok _ =>
  match check_option_range 0 i64Max r.number_of_files with
  | .error e => .error e
  | .ok _ =>
  match check_option_range 0 500 r.number_of_processes with
  | .error e => .error e
  | .ok _ =>
  match check_option_range 0 i64Max r.resident_set_size with
  | .error e => .error e
  | .ok _ =>
  match check_option_range 0 67104768 r.stack with
  | .error e => .error e
  | .ok _ => .ok r

/-- `Config::check_path`: the string must name an existing directory. -/
def Config.check_path (pc : PathChecks) (p : String) : Except Err String :=
  if pc.is_dir p then .ok p else .error .ConfigPathError

/-- `Config::check_file`: the string must name an existing file. -/
def Config.check_file (pc : PathChecks) (p : String) : Except Err String :=
  if pc.is_file p then .ok p else .error .ConfigPathError

/-- The loop in `Config::check` for `StartCalendarInterval`: check each
interval, collecting results in order. -/
def checkCalendarList : List CalendarInterval → List CalendarInterval →
    Except Err (List CalendarInterval)
  | [], acc => .ok acc
  | c :: rest, acc =>
    match c.check with
    | .ok c' => checkCalendarList rest (acc ++ [c'])
    | .error e => .error e

/-- `Config::check` (config.rs): per-kind validation. -/
def Config.check (pc : PathChecks) : Config → Except Err Config
  | .SoftResourceLimit limit =>
    match limit.check with
    | .ok l => .ok (.SoftResourceLimit l)
    | .error e => .error e
  | .HardResourceLimits limit =>
    match limit.check with
    | .ok l => .ok (.HardResourceLimits l)
    | .error e => .error e
  | .StartCalendarInterval calendar =>
    match checkCalendarList calendar [] with
    | .ok new_cals => .ok (.StartCalendarInterval new_cals)
    | .error e => .error e
  | .ExitTimeOut t =>
    match check_range 0 i64Max t with
    | .ok _ => .ok (.ExitTimeOut t)
    | .error e => .error e
  | .StartInterval t =>
    match check_range 0 i64Max t with
    | .ok _ => .ok (.StartInterval t)
    | .error e => .error e
  | .WorkingDirectory p =>
    match Config.check_path pc p with
    | .ok p' => .ok (.WorkingDirectory p')
    | .error e => .error e
  | .RootDirectory p =>
    match Config.check_path pc p with
    | .ok p' => .ok (.RootDirectory p')
    | .error e => .error e
  | .StandardInPath p =>
    match Config.check_file pc p with
    | .ok p' => .ok (.StandardInPath p')
    | .error e => .error e
  | .StandardOutPath p =>
    match Config.check_file pc p with
    | .ok p' => .ok (.StandardOutPath p')
    | .error e => .error e
  | .StandardErrorPath p =>
    match Config.check_file pc p with
    | .ok p' => .ok (.StandardErrorPath p')
    | .error e => .error e
  | other => .ok other

/-- The replace-in-place pass of `Configuration::add_config`: replace the
first entry whose kind name matches, or report `none` if no entry does. -/
def replaceByKind : List Config → String → Config → Option (List Config)
  | [], _, _ => none
  | c :: cs, name, new =>
    if c.kindName == name then some (new :: cs)
    else (replaceByKind cs name new).map (c :: ·)

/-- `Configuration::add_config`: upsert by kind name — replace the first
entry of the same kind in place, else append. -/
def Configuration.add_config (self : Configuration) (config : Config) : Configuration :=
  match replaceByKind self.configuration config.kindName config with
  | some l => { self with configuration := l }
  | none => { self with configuration := self.configuration ++ [config] }

/-- `Configuration::remove_config`: drop every entry of the given kind. -/
def Configuration.remove_config (self : Configuration) (config_name : String) : Configuration :=
  { self with configuration := self.configuration.filter (fun c => c.kindName ≠ config_name) }

/-- `Configuration::check_label`: the (pre-domain) label must match the
label regex. -/
def Configuration.check_label (c : Configuration) : Except Err Configuration :=
  if is_valid_label c.label then .ok c else .error .ConfigLabelError

/-- `Configuration::check_program`: the program path must be absolute
(`Path::is_absolute`, i.e. starts with `/` on unix) and an existing file. -/
def Configuration.check_program (pc : PathChecks) (c : Configuration) :
    Except Err Configuration :=
  if !(strStarts "/" c.program) then .error .ConfigProgramError
  else if !(pc.is_file c.program) then .error .ConfigProgramError
  else .ok c

/-- `Configuration::append_domain`: prefix the label with
`com.tasker.tasks.`. -/
def Configuration.append_domain (c : Configuration) : Configuration :=
  { c with label := TASKER_TASK_NAME ++ "." ++ c.label }

/-- The rebuild loop of `Configuration::from_yaml`: check each entry and
upsert it into a fresh `Configuration` (this deduplicates kinds, keeping
the last value at the first occurrence's position). -/
def buildConfigs (pc : PathChecks) : Configuration → List Config → Except Err Configuration
  | acc, [] => .ok acc
  | acc, c :: rest =>
    match Config.check pc c with
    | .ok c' => buildConfigs pc (acc.add_config c') rest
    | .error e => .error e

/-- `Configuration::from_yaml` at document level: validate label and
program, append the domain, then re-check and upsert every option.  The
serde parse of the input text is modelled as the already-structured
document `doc`. -/
def Configuration.from_yaml (pc : PathChecks) (doc : Configuration) :
    Except Err Configuration :=
  match doc.check_label with
  | .error e => .error e
  | .ok d1 =>
  match d1.check_program pc with
  | .error e => .error e
  | .ok d2 =>
  let d3 := d2.append_domain
  buildConfigs pc ⟨d3.label, d3.program, []⟩ d3.configuration

/-- `Configuration::to_yaml` composed with a faithful re-parse, at
document level.  The serialized text is identical to the document except
that the one top-level line `Label: com.tasker.tasks.<raw>` is rewritten
to `Label: <raw>`; re-parsing therefore yields the same document with
the domain stripped from the front of the label. -/
def Configuration.to_yaml (c : Configuration) : Configuration :=
  let pre := TASKER_TASK_NAME ++ "."
  if strStarts pre c.label then { c with label := strDrop pre.data.length c.label }
  else c

/-- `Configuration::get_user_name` / `get_group_name` helpers used by the
lifecycle engine's chown calls. -/
def Configuration.get_user_name (c : Configuration) : Option String :=
  c.configuration.findSome? (fun x => match x with | .UserName s => some s | _ => none)

def Configuration.get_group_name (c : Configuration) : Option String :=
  c.configuration.findSome? (fun x => match x with | .GroupName s => some s | _ => none)

/-! ## The world model

Absolute filesystem paths are component lists (`/a/b` is `["a", "b"]`).
`World` holds the filesystem (existing directories and files), the
external launchd job registry, and a log of the external load/unload
verb invocations.  The `launchctl list` output is modelled at record
level: one `LiveEntry` per listed job, with the pid column optional (it
reads `-` for non-running jobs) and the status column an integer, per
the external tool's tabular output contract. -/

/-- Filesystem path as a list of components, rooted at `/`. -/
abbrev Path := List String

/-- Abstract file contents: the canonical declarative yaml documents the
engine reads back are kept structurally; all other contents are opaque. -/
inductive FileData where
  | yamlDoc (d : Configuration)
  | blob
deriving DecidableEq

/-- One row of the external tool's `list` output, at record level. -/
structure LiveEntry where
  pid : Option Int
  last_exit_status : Int
  label : String
deriving DecidableEq

/-- External verb invocations recorded for the theorems. -/
inductive ExtCall where
  | loadCall (label : String)
  | unloadCall (label : String)
deriving DecidableEq

/-- The process-wide root directories (initialize.rs `Env`), fixed for
the process lifetime. -/
structure EnvDirs where
  meta_dir : Path
  task_dir : Path
  out_dir : Path
  trash_dir : Path
deriving DecidableEq

structure World where
  env : EnvDirs
  dirs : List Path
  files : List (Path × FileData)
  launchd : List LiveEntry
  log : List ExtCall
deriving DecidableEq

/-- Result of an operation: success, a typed error, or a Rust panic. -/
inductive Outcome (α : Type) where
  | ok (a : α)
  | err (e : Err)
  | panicked
deriving DecidableEq

/-- `PLIST_FOLDER = "/Library/LaunchDaemons/"`. -/
def plistDir : Path := ["Library", "LaunchDaemons"]

def get_plist_path (label : String) : Path := plistDir ++ [label ++ ".plist"]

def get_task_folder_name (env : EnvDirs) (label : String) : Path := env.task_dir ++ [label]

def get_output_folder_name (env : EnvDirs) (label : String) : Path := env.out_dir ++ [label]

def get_trash_folder_name (env : EnvDirs) (label : String) : Path := env.trash_dir ++ [label]

def metaYamlPath (env : EnvDirs) (label : String) : Path := env.meta_dir ++ [label ++ ".yaml"]

/-- `std::fs::metadata(p).is_ok()`: `p` exists as a directory or file. -/
def metadataOk (p : Path) (w : World) : Bool :=
  w.dirs.contains p || w.files.any (fun f => f.1 == p)

def getFile (p : Path) (w : World) : Option FileData :=
  (w.files.find? (fun f => f.1 == p)).map (fun f => f.2)

/-- Remove the entry for `p` from the file table (no-op when absent). -/
def eraseFile (p : Path) (w : World) : World :=
  { w with files := w.files.filter (fun f => f.1 ≠ p) }

/-- Create or truncate the file at `p`. -/
def setFile (p : Path) (d : FileData) (w : World) : World :=
  { w with files := (p, d) :: (eraseFile p w).files }

/-- The nonempty component prefixes of a path (`/a`, `/a/b`, …). -/
def pathPrefixes (p : Path) : List Path :=
  (List.range p.length).map (fun i => p.take (i + 1))

/-- `std::fs::create_dir_all`: create the directory and its ancestors;
fails when some prefix of the path already exists as a regular file. -/
def create_dir_all (p : Path) (w : World) : Option World :=
  if (pathPrefixes p).any (fun q => w.files.any (fun f => f.1 == q)) then none
  else some { w with dirs := w.dirs ++ (pathPrefixes p).filter (fun q => !w.dirs.contains q) }

/-- `create_dir_check` (utils.rs): no-op when the path already has
metadata (even when that metadata is a regular file), else create. -/
def create_dir_check (p : Path) (w : World) : Outcome Unit × World :=
  if metadataOk p w then (.ok (), w)
  else
    match create_dir_all p w with
    | some w' => (.ok (), w')
    | none => (.err .ErrorCreatingFolder, w)

/-- `create_dir_io_error` (utils.rs): `create_dir_check` with the error
mapped into `std::io::Error`; modelled as an optional result. -/
def create_dir_io (p : Path) (w : World) : Option World :=
  if metadataOk p w then some w
  else create_dir_all p w

/-- `delete_file_check` (utils.rs): remove the file when present;
errors when the path has no metadata (and a directory cannot be removed
with `remove_file`, so that also errors). -/
def delete_file_check (p : Path) (w : World) : Outcome Unit × World :=
  match getFile p w with
  | some _ => (.ok (), eraseFile p w)
  | none => (.err .NoFileToDelete, w)

/-- `std::fs::remove_file`, as invoked directly by the lifecycle engine
(`delete_task`, `move_yaml_to_meta`); io-level, so just an option. -/
def remove_file (p : Path) (w : World) : Option World :=
  match getFile p w with
  | some _ => some (eraseFile p w)
  | none => none

/-- `std::fs::rename` of a regular file: succeeds when the source file
exists and the destination's parent directory exists (replacing any
destination file). -/
def renameFile (src dst : Path) (w : World) : Option World :=
  match getFile src w with
  | some d => if w.dirs.contains dst.dropLast then some (setFile dst d (eraseFile src w)) else none
  | none => none

/-- `std::fs::copy`: like `renameFile` but the source stays. -/
def copyFile (src dst : Path) (w : World) : Option World :=
  match getFile src w with
  | some d => if w.dirs.contains dst.dropLast then some (setFile dst d w) else none
  | none => none

/-- `std::fs::remove_dir_all`: remove the directory and everything
below it; fails when the path is not an existing directory. -/
def remove_dir_all (p : Path) (w : World) : Option World :=
  if w.dirs.contains p then
    some { w with
      dirs := w.dirs.filter (fun d => !p.isPrefixOf d),
      files := w.files.filter (fun f => !p.isPrefixOf f.1) }
  else none

/-- Immediate subdirectories of `p`. -/
def childDirs (p : Path) (w : World) : List Path :=
  w.dirs.filter (fun d => p.isPrefixOf d && d.length == p.length + 1)

/-- Files directly inside `p`. -/
def childFiles (p : Path) (w : World) : List Path :=
  (w.files.map (fun f => f.1)).filter (fun f => p.isPrefixOf f && f.length == p.length + 1)

/-- A `read_dir` entry, already classified by the `path.is_dir()` test
the traversal loops perform on it. -/
inductive Entry where
  | dirE (p : Path)
  | fileE (p : Path)
deriving DecidableEq

/-- `std::fs::read_dir`: the immediate children of an existing
directory (subdirectories first; the source's entry order is
unspecified, this fixes one). -/
def read_dir (p : Path) (w : World) : Option (List Entry) :=
  if w.dirs.contains p then
    some ((childDirs p w).map .dirE ++ (childFiles p w).map .fileE)
  else none

/-! ## `move_by_rename` (utils.rs)

The source keeps an explicit stack of directories to visit.  For each
popped directory it computes the destination `dest`, but then calls
`create_dir_io_error(&to)` — creating the destination *root*, not
`dest` — and renames each contained file into `dest`; subdirectories
are pushed.  After the loop it calls
`std::fs::remove_dir_all(from).unwrap()`, a panic (not a typed error)
on failure.  The loop is fuelled; the fuel `|dirs| + 1` dominates the
iteration count (each pushed path is a distinct directory), and running
out of fuel is reported as an io error. -/

/-- The `for entry in read_dir(...)` body: push subdirectories (in
order, returned as the accumulated list), rename files into `dest`,
stopping at the first failing rename. -/
def entry_go (dest : Path) : List Entry → List Path → World → Option (List Path) × World
  | [], acc, w => (some acc, w)
  | .dirE d :: es, acc, w => entry_go dest es (acc ++ [d]) w
  | .fileE f :: es, acc, w =>
    match f.getLast? with
    | none => entry_go dest es acc w
    | some name =>
      match renameFile f (dest ++ [name]) w with
      | some w' => entry_go dest es acc w'
      | none => (none, w)

/-- The `while let Some(working_path) = stack.pop()` loop of
`move_by_rename_inner`.  `input_root` is `from.components().count()`;
`output_root` and `toP` are both `to` (the source really creates `to`
rather than `dest` inside the loop).  The Vec-based stack is
represented head-first, so pushed subdirectories are prepended in
reverse. -/
def move_loop (toP : Path) (input_root : Nat) (output_root : Path) :
    Nat → List Path → World → Outcome Unit × World
  | _, [], w => (.ok (), w)
  | 0, _ :: _, w => (.err .IoError, w)
  | fuel + 1, working :: rest, w =>
    let src := working.drop input_root
    let dest := if src.length == 0 then output_root else output_root ++ src
    match create_dir_io toP w with
    | none => (.err .IoError, w)
    | some w1 =>
      match read_dir working w1 with
      | none => (.err .IoError, w1)
      | some entries =>
        match entry_go dest entries [] w1 with
        | (none, w2) => (.err .IoError, w2)
        | (some pushed, w2) =>
          move_loop toP input_root output_root fuel (pushed.reverse ++ rest) w2

/-- `move_by_rename_inner` (utils.rs): create the destination root, run
the traversal loop, then `remove_dir_all(from).unwrap()` — the unwrap
is a panic, not an error. -/
def move_by_rename_inner (fromP toP : Path) (w : World) : Outcome Unit × World :=
  match create_dir_io toP w with
  | none => (.err .IoError, w)
  | some w1 =>
    match move_loop toP fromP.length toP (w1.dirs.length + 1) [fromP] w1 with
    | (.ok _, w2) =>
      match remove_dir_all fromP w2 with
      | some w3 => (.ok (), w3)
      | none => (.panicked, w2)
    | (r, w2) => (r, w2)

/-- `move_by_rename` (utils.rs): wrap any io error of the traversal in
`Error::RenameError`. -/
def move_by_rename (fromP toP : Path) (w : World) : Outcome Unit × World :=
  match move_by_rename_inner fromP toP w with
  | (.err _, w') => (.err .RenameError, w')
  | r => r

/-- `chown_by_name_recursive` (utils.rs): ownership metadata is not
modelled, and user/group names are taken as resolvable, so the walk
succeeds exactly when the root path exists (otherwise
`get_user_group_pair_id` reports `PathDoesNotExist`). -/
def chown_by_name_recursive (p : Path) (_username _group_name : Option String)
    (w : World) : Outcome Unit × World :=
  if metadataOk p w then (.ok (), w) else (.err .PathDoesNotExist, w)

/-! ## Process control adapter (launchctl.rs) -/

inductive Status where
  | RUNNING
  | LOADED
  | UNLOADED
  | NORMAL
  | ERROR
deriving DecidableEq

structure TaskInfo where
  pid : Option Int
  last_exit_status : Option Int
  label : String
  status : Status
deriving DecidableEq

/-- Rust `str::parse::<i32>()`: optional sign, nonempty digits, value
within the `i32` range. -/
def parseI32 (s : String) : Option Int :=
  let core : Option (Int × List Char) :=
    match s.data with
    | '-' :: rest => some (-1, rest)
    | '+' :: rest => some (1, rest)
    | cs => some (1, cs)
  match core with
  | some (sign, ds) =>
    if ds.isEmpty || !ds.all Char.isDigit then none
    else
      let v : Int := sign * (ds.foldl (fun n c => 10 * n + (c.toNat - '0'.toNat)) 0 : Nat)
      if -2147483648 ≤ v ∧ v ≤ 2147483647 then some v else none
  | none => none

/-- Rust `str::split_whitespace`: split on whitespace, dropping empty
tokens. -/
def rustWords (s : String) : List String :=
  ((splitChars Char.isWhitespace s.data).filter (fun t => !t.isEmpty)).map String.mk

/-- Strip one trailing carriage return. -/
def stripCR (l : String) : String :=
  if l.data.getLast? == some '\r' then ⟨l.data.dropLast⟩ else l

/-- Rust `str::lines`: split on `\n`, strip a `\r` before each `\n`,
and drop the optional final empty line. -/
def rustLines (s : String) : List String :=
  let parts := (splitChars (fun c => c == '\n') s.data).map String.mk
  match parts.getLast? with
  | none => []
  | some "" => parts.dropLast.map stripCR
  | some l => parts.dropLast.map stripCR ++ [l]

/-- The status ladder of `TaskInfo::from_line`, for a record whose exit
status parsed (`v`): RUNNING if a pid is present; else ERROR if `v ≠ 0`;
else LOADED while the job's `stdout.log` does not exist yet; else
NORMAL. -/
def statusLadder (w : World) (pid : Option Int) (v : Int) (label : String) : Status :=
  if pid.isSome then .RUNNING
  else if v ≠ 0 then .ERROR
  else if !metadataOk (get_output_folder_name w.env label ++ [STD_OUT_FILE]) w then .LOADED
  else .NORMAL

/-- `TaskInfo::from_line`: whitespace-split into pid / last exit status
/ label (first token defaults to `-`, second to `0`, third to the empty
string).  When the pid is absent the source calls
`last_exit_status.unwrap()`, so a line whose second token does not
parse as an integer panics (`none`). -/
def TaskInfo.from_line (w : World) (line : String) : Option TaskInfo :=
  let toks := rustWords line
  let pid := parseI32 (toks.getD 0 "-")
  let les := parseI32 (toks.getD 1 "0")
  let label := toks.getD 2 ""
  match pid, les with
  | some p, _ => some ⟨some p, les, label, .RUNNING⟩
  | none, some v => some ⟨none, some v, label, statusLadder w none v label⟩
  | none, none => none

/-- `TaskInfo::from_just_label`: an inventory-only record, surfaced as
UNLOADED. -/
def TaskInfo.from_just_label (label : String) : TaskInfo :=
  ⟨none, none, label, .UNLOADED⟩

/-- Strict lexicographic order on character lists (Rust's `Ord` for
`String`). -/
def charsLt : List Char → List Char → Bool
  | [], [] => false
  | [], _ :: _ => true
  | _ :: _, [] => false
  | a :: as, b :: bs => if a < b then true else if b < a then false else charsLt as bs

/-- Strict lexicographic order on strings. -/
def strLt (a b : String) : Bool := charsLt a.data b.data

/-- `BTreeSet<TaskInfo>::insert`, with `Ord` on `TaskInfo` comparing
labels only: ordered insert that keeps the existing element on an equal
label. -/
def insertTask (t : TaskInfo) : List TaskInfo → List TaskInfo
  | [] => [t]
  | x :: xs =>
    if strLt t.label x.label then t :: x :: xs
    else if t.label == x.label then x :: xs
    else x :: insertTask t xs

/-- `TaskInfo::from_str_filter`: skip the header line, parse every
remaining line (a panic in any line aborts), then keep the records
whose label contains both the filter pattern and the
`com.tasker.tasks` marker, collected into the ordered set. -/
def TaskInfo.from_str_filter (w : World) (output : String) (pattern : String) :
    Option (List TaskInfo) :=
  match ((rustLines output).drop 1).mapM (TaskInfo.from_line w) with
  | none => none
  | some temp =>
    some (temp.foldl
      (fun s t =>
        if strContains t.label pattern && strContains t.label TASKER_TASK_NAME
        then insertTask t s else s)
      [])

/-- The record-level `TaskInfo` for a live launchd entry (the status
ladder of `from_line`, which never panics here because the record's
exit-status column is an integer). -/
def liveTaskInfo (w : World) (e : LiveEntry) : TaskInfo :=
  match e.pid with
  | some p => ⟨some p, some e.last_exit_status, e.label, .RUNNING⟩
  | none => ⟨none, some e.last_exit_status, e.label, statusLadder w none e.last_exit_status e.label⟩

/-- `launchctl_list` (launchctl.rs): run the external `list` verb and
parse its output.  Modelled at record level over the world's launchd
registry; the external command itself is taken as succeeding, so the
result is total. -/
def launchctl_list (label_pattern : String) (w : World) : List TaskInfo :=
  (w.launchd.map (liveTaskInfo w)).foldl
    (fun s t =>
      if strContains t.label label_pattern && strContains t.label TASKER_TASK_NAME
      then insertTask t s else s)
    []

/-- Does the name match `^(.+)\.yaml$` (together with the `extension()
== "yaml"` test of the caller)?  Equivalent to ending in `.yaml` for
the names that survive the `com.tasker.tasks` filter. -/
def yamlFileName (name : String) : Bool :=
  ".yaml".data.isSuffixOf name.data

/-- The regex capture: the name with the trailing `.yaml` removed. -/
def yamlStem (name : String) : String := ⟨name.data.take (name.data.length - 5)⟩

/-- `meta_yaml_list` (launchctl.rs): enumerate the meta directory and
surface every `<label>.yaml` whose name contains the pattern and the
domain marker as an UNLOADED record; fails when the meta directory
cannot be read. -/
def meta_yaml_list (label_pattern : String) (w : World) : Except Err (List TaskInfo) :=
  if w.dirs.contains w.env.meta_dir then
    .ok ((childFiles w.env.meta_dir w).foldl
      (fun acc f =>
        match f.getLast? with
        | some name =>
          if yamlFileName name && strContains name label_pattern &&
              strContains name TASKER_TASK_NAME
          then acc ++ [TaskInfo.from_just_label (yamlStem name)]
          else acc
        | none => acc)
      [])
  else .error .FailedToReadMetaFolder

/-- `list_combined` (launchctl.rs): start from the live set and insert
every inventory record whose label is not already present. -/
def list_combined (label_pattern : String) (w : World) : Except Err (List TaskInfo) :=
  let launchctl_info := launchctl_list label_pattern w
  match meta_yaml_list label_pattern w with
  | .error e => .error e
  | .ok meta_yaml_info =>
    .ok (meta_yaml_info.foldl
      (fun s t => if s.any (fun x => x.label == t.label) then s else insertTask t s)
      launchctl_info)

/-- `is_loaded` (launchctl.rs): the label appears in the live listing. -/
def is_loaded (label_pattern : String) (w : World) : Bool :=
  (launchctl_list label_pattern w).any (fun t => t.label == label_pattern)

/-- `exist` (launchctl.rs): the label appears in the combined listing. -/
def exist (label_pattern : String) (w : World) : Except Err Bool :=
  match list_combined label_pattern w with
  | .error e => .error e
  | .ok l => .ok (l.any (fun t => t.label == label_pattern))

/-! ## Lifecycle engine (launchctl.rs) -/

/-- `unload_inner`: the external `launchctl unload` verb.  The external
command is modelled as succeeding and deregistering the label. -/
def unload_inner (task_label : String) (w : World) : World :=
  { w with
    launchd := w.launchd.filter (fun e => e.label ≠ task_label),
    log := w.log ++ [.unloadCall task_label] }

/-- `load_inner`: error if already loaded; error if the label is
unknown to the combined inventory; else the external `launchctl load`
verb, modelled as registering the label as a fresh (not yet running)
job. -/
def load_inner (task_label : String) (w : World) : Outcome Unit × World :=
  if is_loaded task_label w then (.err .FailedToLoadTask, w)
  else
    match exist task_label w with
    | .error e => (.err e, w)
    | .ok false => (.err .TaskDoesNotExist, w)
    | .ok true =>
      (.ok (), { w with
        launchd := w.launchd ++ [⟨none, 0, task_label⟩],
        log := w.log ++ [.loadCall task_label] })

/-- `try_remove_plist`: best-effort removal of the descriptor file. -/
def try_remove_plist (task_label : String) (w : World) : World :=
  (delete_file_check (get_plist_path task_label) w).2

/-- `unload_task` (launchctl.rs): query the load state; invoke the
unload verb only when loaded; always try to remove the plist; report
failure when the label was not loaded. -/
def unload_task (task_label : String) (w : World) : Outcome Unit × World :=
  let loaded := is_loaded task_label w
  let w1 := if loaded then unload_inner task_label w else w
  let w2 := try_remove_plist task_label w1
  if !loaded then (.err .FailedToUnloadTask, w2) else (.ok (), w2)

/-- `try_clear_output`: best-effort move of the output directory into
the label's trash subfolder (`Err` absorbed, a panic propagates). -/
def try_clear_output (task_label : String) (w : World) : Outcome Unit × World :=
  match move_by_rename (get_output_folder_name w.env task_label)
      (get_trash_folder_name w.env task_label ++ ["out"]) w with
  | (.panicked, w') => (.panicked, w')
  | (_, w') => (.ok (), w')

/-- The two meta-yaml steps of `delete_task`: best-effort copy of the
meta yaml into the label's trash folder, then best-effort removal of
the meta copy (both `std::fs` results are discarded). -/
def delete_meta_steps (task_label : String) (w : World) : World :=
  let yaml_in_meta := metaYamlPath w.env task_label
  let w3 :=
    match yaml_in_meta.getLast? with
    | some file_name =>
      match copyFile yaml_in_meta (get_trash_folder_name w.env task_label ++ [file_name]) w with
      | some w' => w'
      | none => w
    | none => w
  match remove_file yaml_in_meta w3 with
  | some w' => w'
  | none => w3

/-- `delete_task` (launchctl.rs): best-effort unload, best-effort move
of the task folder to trash, best-effort copy of the meta yaml into
trash followed by best-effort removal of the meta copy, best-effort
move of the output folder to trash; every `Err` is absorbed and the
function returns `Ok(())`. -/
def delete_task (task_label : String) (w : World) : Outcome Unit × World :=
  let w1 := (unload_task task_label w).2
  match move_by_rename (get_task_folder_name w1.env task_label)
      (get_trash_folder_name w1.env task_label) w1 with
  | (.panicked, w2) => (.panicked, w2)
  | (_, w2) =>
    match try_clear_output task_label (delete_meta_steps task_label w2) with
    | (.panicked, w5) => (.panicked, w5)
    | (_, w5) => (.ok (), w5)

/-- `replace_root_alias` (launchctl.rs): rewrite a leading `~root~/` to
the task folder path (`PathBuf::join` semantics: an absolute remainder
replaces the base).  The non-utf8 failure branch cannot arise in the
model. -/
def replace_root_alias (task_folder_str : String) (path : String) : String :=
  if strStarts TASK_ROOT_ALIAS path then
    let alias_removed := strDrop TASK_ROOT_ALIAS.data.length path
    if strStarts "/" alias_removed then alias_removed
    else task_folder_str ++ "/" ++ alias_removed
  else path

/-- Render a component path as the absolute path string `PathBuf::to_str`
would produce. -/
def pathToStr (p : Path) : String := p.foldl (fun a c => a ++ "/" ++ c) ""

/-- `replace_task_root_alias`: rewrite the alias in every
program-argument, working-directory and root-directory value. -/
def replace_task_root_alias (config : Configuration) (task_label : String)
    (env : EnvDirs) : Configuration :=
  let task_folder := pathToStr (get_task_folder_name env task_label)
  { config with
    configuration := config.configuration.map (fun conf =>
      match conf with
      | .ProgramArguments arguments =>
        .ProgramArguments (arguments.map (replace_root_alias task_folder))
      | .WorkingDirectory working_directory =>
        .WorkingDirectory (replace_root_alias task_folder working_directory)
      | .RootDirectory working_directory =>
        .RootDirectory (replace_root_alias task_folder working_directory)
      | other => other) }

/-- `set_working_directory_as_root_alias`: when no `WorkingDirectory`
entry exists, append one holding the root-alias token. -/
def set_working_directory_as_root_alias (config : Configuration) : Configuration :=
  if config.configuration.any (fun c => match c with
      | .WorkingDirectory _ => true
      | _ => false)
  then config
  else config.add_config (.WorkingDirectory TASK_ROOT_ALIAS)

/-- `process_config` (launchctl.rs): default the working directory to
the root alias, substitute the alias, clear and recreate the output
folder, chown it, then upsert the stdout/stderr redirection paths into
the output folder. -/
def process_config (config : Configuration) (w : World) : Outcome Configuration × World :=
  let label := config.label
  let config1 := set_working_directory_as_root_alias config
  let config2 := replace_task_root_alias config1 label w.env
  let task_output_name := get_output_folder_name w.env label
  match try_clear_output label w with
  | (.panicked, w1) => (.panicked, w1)
  | (_, w1) =>
    match create_dir_check task_output_name w1 with
    | (.err e, w2) => (.err e, w2)
    | (.panicked, w2) => (.panicked, w2)
    | (.ok _, w2) =>
      match chown_by_name_recursive task_output_name config2.get_user_name
          config2.get_group_name w2 with
      | (.err e, w3) => (.err e, w3)
      | (.panicked, w3) => (.panicked, w3)
      | (.ok _, w3) =>
        let std_out_file := pathToStr (task_output_name ++ [STD_OUT_FILE])
        let std_err_file := pathToStr (task_output_name ++ [STD_ERR_FILE])
        (.ok ((config2.add_config (.StandardOutPath std_out_file)).add_config
          (.StandardErrorPath std_err_file)), w3)

/-- `update_yaml_in_meta`: overwrite the label's meta yaml with the
submitted declarative text (the original document, not the processed
configuration); `fs::write` fails when the meta directory is missing. -/
def update_yaml_in_meta (yaml_content : Configuration) (label : String)
    (w : World) : Outcome Unit × World :=
  if w.dirs.contains w.env.meta_dir then
    (.ok (), setFile (metaYamlPath w.env label) (.yamlDoc yaml_content) w)
  else (.err .FailedToUpdateMetaYaml, w)

/-- `place_plist_and_load` (launchctl.rs): remove any stale plist,
write the descriptor file (failing when the LaunchDaemons directory is
missing), silently unload when the label is still loaded, then load. -/
def place_plist_and_load (config : Configuration) (w : World) : Outcome Unit × World :=
  let label := config.label
  let w1 := try_remove_plist label w
  if w1.dirs.contains plistDir then
    let w2 := setFile (get_plist_path label) .blob w1
    let w3 := if is_loaded label w2 then unload_inner label w2 else w2
    load_inner label w3
  else (.err .ErrorCreatingPlist, w1)

/-- The filesystem predicates validation consults, derived from the
world: a path string resolves to its component list. -/
def strToPath (s : String) : Path :=
  ((splitChars (fun c => c == '/') s.data).filter (fun t => !t.isEmpty)).map String.mk

def pathChecks (w : World) : PathChecks :=
  { is_file := fun s => (getFile (strToPath s) w).isSome,
    is_dir := fun s => w.dirs.contains (strToPath s) }

/-- `view_yaml` (launchctl.rs): reject unknown labels, then read the
label's canonical declarative document from the meta directory. -/
def view_yaml (label : String) (w : World) : Except Err Configuration :=
  match exist label w with
  | .error e => .error e
  | .ok false => .error .TaskDoesNotExist
  | .ok true =>
    match getFile (metaYamlPath w.env label) w with
    | some (.yamlDoc d) => .ok d
    | _ => .error .NonUtfError

/-- `load_task` (launchctl.rs): the public load operation — read the
meta yaml, validate, process, then `place_plist_and_load`. -/
def load_task (task_label : String) (w : World) : Outcome Unit × World :=
  match view_yaml task_label w with
  | .error e => (.err e, w)
  | .ok yaml =>
    match Configuration.from_yaml (pathChecks w) yaml with
    | .error e => (.err e, w)
    | .ok config =>
      match process_config config w with
      | (.err e, w1) => (.err e, w1)
      | (.panicked, w1) => (.panicked, w1)
      | (.ok config', w1) => place_plist_and_load config' w1

/-- `update_yaml` (launchctl.rs): validate the submitted document,
reject a label mismatch or an unknown label, record the load state,
unload first when loaded, process the configuration, overwrite the meta
copy, and reload only when the label was loaded before. -/
def update_yaml (yaml_content : Configuration) (this_label : String)
    (w : World) : Outcome Unit × World :=
  match Configuration.from_yaml (pathChecks w) yaml_content with
  | .error e => (.err e, w)
  | .ok config =>
    let label := config.label
    if !(label == this_label) then (.err .WrongLabelInYaml, w)
    else
      match exist label w with
      | .error e => (.err e, w)
      | .ok false => (.err .TaskDoesNotExist, w)
      | .ok true =>
        let loaded := is_loaded label w
        let w1 := if loaded then unload_inner label w else w
        match process_config config w1 with
        | (.err e, w2) => (.err e, w2)
        | (.panicked, w2) => (.panicked, w2)
        | (.ok config', w2) =>
          match update_yaml_in_meta yaml_content label w2 with
          | (.err e, w3) => (.err e, w3)
          | (.panicked, w3) => (.panicked, w3)
          | (.ok _, w3) =>
            if loaded then place_plist_and_load config' w3
            else (.ok (), w3)

/-! ## Concrete fixtures

Small concrete documents and worlds used to evaluate the operations at
specific inputs. -/

/-- A filesystem where `/usr/bin/python` is a file and `/tmp` a
directory. -/
def pcW : PathChecks :=
  { is_file := fun s => s == "/usr/bin/python", is_dir := fun s => s == "/tmp" }

/-- A small declarative document. -/
def docW : Configuration :=
  ⟨"test_task", "/usr/bin/python",
    [.StandardOutPath "/usr/bin/python",
     .StartCalendarInterval [⟨some 15, some 9, none, none, none⟩],
     .HardResourceLimits ⟨none, none, some 10000, some 8, none, none⟩]⟩

/-- `docW` after validation. -/
def cW : Configuration :=
  ⟨"com.tasker.tasks.test_task", "/usr/bin/python",
    [.StandardOutPath "/usr/bin/python",
     .StartCalendarInterval [⟨some 15, some 9, none, none, none⟩],
     .HardResourceLimits ⟨none, none, some 10000, some 8, none, none⟩]⟩

/-- Root-directory layout `/r/{meta,tasks,out,trash}`. -/
def envW : EnvDirs := ⟨["r", "meta"], ["r", "tasks"], ["r", "out"], ["r", "trash"]⟩

/-- The standard directory skeleton for the lifecycle fixtures. -/
def skelDirs : List Path :=
  [["r"], ["r", "meta"], ["r", "tasks"], ["r", "out"], ["r", "trash"],
   ["Library", "LaunchDaemons"], ["usr"], ["usr", "bin"]]

/-- The canonical meta document of the fixture task `t`. -/
def docT : Configuration := ⟨"t", "/usr/bin/python", []⟩

/-- The fixture task's full label. -/
def lblT : String := "com.tasker.tasks.t"

/-- A world where task `t` is created and currently loaded (running as
pid 9), its meta yaml present and the program file existing. -/
def wLoadedW : World :=
  ⟨envW, skelDirs,
    [(["usr", "bin", "python"], .blob), (["r", "meta", "com.tasker.tasks.t.yaml"], .yamlDoc docT)],
    [⟨some 9, 0, lblT⟩], []⟩

/-- The same world with the task not loaded. -/
def wUnloadedW : World :=
  ⟨envW, skelDirs,
    [(["usr", "bin", "python"], .blob), (["r", "meta", "com.tasker.tasks.t.yaml"], .yamlDoc docT)],
    [], []⟩

/-- A world with one live running job `…b` and one inventory-only meta
yaml `…a`. -/
def wMergeW : World :=
  ⟨envW, [["r", "meta"]],
    [(["r", "meta", "com.tasker.tasks.a.yaml"], .blob)],
    [⟨some 5, 0, "com.tasker.tasks.b"⟩], []⟩

/-- The fixture label for deletion. -/
def lblD : String := "com.tasker.tasks.d"

/-- A world where task `d`'s task directory is missing but its meta
yaml and output directory exist. -/
def wDelW : World :=
  ⟨envW,
    [["r"], ["r", "meta"], ["r", "tasks"], ["r", "out"], ["r", "trash"], ["r", "out", lblD]],
    [(["r", "meta", "com.tasker.tasks.d.yaml"], .yamlDoc docT),
     (["r", "out", lblD, "stdout.log"], .blob)],
    [], []⟩

/-- A world holding the tree `/src/f1`, `/src/sub/f2`: a source tree
with a file inside a subdirectory. -/
def wNestedW : World :=
  ⟨envW, [["src"], ["src", "sub"]],
    [(["src", "f1"], .blob), (["src", "sub", "f2"], .blob)], [], []⟩

/-- A world holding the flat tree `/src/f1`. -/
def wFlatW : World :=
  ⟨envW, [["src"]], [(["src", "f1"], .blob)], [], []⟩

/-- A world with nothing in it. -/
def wEmptyW : World := ⟨envW, [], [], [], []⟩

/-! # Theorems

## C1: validated configurations round-trip through the declarative form -/

theorem cal_check_eq {c c' : CalendarInterval} (h : c.check = .ok c') : c' = c := by
  unfold CalendarInterval.check at h
  repeat' split at h
  all_goals simp_all

theorem rl_check_eq {r r' : ResourceLimit} (h : r.check = .ok r') : r' = r := by
  unfold ResourceLimit.check at h
  repeat' split at h
  all_goals simp_all

theorem checkCalendarList_eq : ∀ (l acc : List CalendarInterval) {r},
    checkCalendarList l acc = .ok r → r = acc ++ l
  | [], acc, r, h => by
    simp only [checkCalendarList] at h
    simp_all
  | c :: rest, acc, r, h => by
    simp only [checkCalendarList] at h
    cases hc : c.check with
    | error e => rw [hc] at h; cases h
    | ok c' =>
      rw [hc] at h
      have := checkCalendarList_eq rest (acc ++ [c']) h
      rw [cal_check_eq hc] at this
      simp [this]

theorem check_path_eq {pc : PathChecks} {p p' : String}
    (h : Config.check_path pc p = .ok p') : p' = p := by
  unfold Config.check_path at h
  split at h <;> simp_all

theorem check_file_eq {pc : PathChecks} {p p' : String}
    (h : Config.check_file pc p = .ok p') : p' = p := by
  unfold Config.check_file at h
  split at h <;> simp_all

theorem config_check_eq {pc : PathChecks} {c c' : Config}
    (h : Config.check pc c = .ok c') : c' = c := by
  cases c
  case StartCalendarInterval cals =>
    simp only [Config.check] at h
    cases hc : checkCalendarList cals [] with
    | error e => rw [hc] at h; cases h
    | ok new_cals =>
      rw [hc] at h
      cases h
      have := checkCalendarList_eq cals [] hc
      simp at this
      rw [this]
  case SoftResourceLimit r0 =>
    simp only [Config.check] at h
    cases hr : r0.check with
    | error e => rw [hr] at h; cases h
    | ok l => rw [hr] at h; cases h; rw [rl_check_eq hr]
  case HardResourceLimits r0 =>
    simp only [Config.check] at h
    cases hr : r0.check with
    | error e => rw [hr] at h; cases h
    | ok l => rw [hr] at h; cases h; rw [rl_check_eq hr]
  case WorkingDirectory p =>
    simp only [Config.check] at h
    cases hp : Config.check_path pc p with
    | error e => rw [hp] at h; cases h
    | ok p' => rw [hp] at h; cases h; rw [check_path_eq hp]
  case RootDirectory p =>
    simp only [Config.check] at h
    cases hp : Config.check_path pc p with
    | error e => rw [hp] at h; cases h
    | ok p' => rw [hp] at h; cases h; rw [check_path_eq hp]
  case StandardInPath p =>
    simp only [Config.check] at h
    cases hp : Config.check_file pc p with
    | error e => rw [hp] at h; cases h
    | ok p' => rw [hp] at h; cases h; rw [check_file_eq hp]
  case StandardOutPath p =>
    simp only [Config.check] at h
    cases hp : Config.check_file pc p with
    | error e => rw [hp] at h; cases h
    | ok p' => rw [hp] at h; cases h; rw [check_file_eq hp]
  case StandardErrorPath p =>
    simp only [Config.check] at h
    cases hp : Config.check_file pc p with
    | error e => rw [hp] at h; cases h
    | ok p' => rw [hp] at h; cases h; rw [check_file_eq hp]
  all_goals (simp only [Config.check] at h <;> (try repeat' split at h) <;> simp_all)

/-- The kind-name column of an option list; its `Nodup`-ness is the
at-most-one-entry-per-kind invariant. -/
def kinds (l : List Config) : List String := l.map Config.kindName

theorem replaceByKind_none {l : List Config} {name : String} {x : Config}
    (h : replaceByKind l name x = none) : ∀ y ∈ l, y.kindName ≠ name := by
  induction l with
  | nil => intro y hy; cases hy
  | cons c cs ih =>
    intro y hy
    simp only [replaceByKind] at h
    split at h
    · cases h
    · cases hy with
      | head => simp_all
      | tail _ hy' =>
        cases hre : replaceByKind cs name x with
        | some l'' => rw [hre] at h; cases h
        | none => exact ih hre y hy'

theorem replaceByKind_none_of_no_match {l : List Config} {name : String} {x : Config}
    (h : ∀ y ∈ l, y.kindName ≠ name) : replaceByKind l name x = none := by
  induction l with
  | nil => rfl
  | cons c cs ih =>
    simp only [replaceByKind]
    have hc : c.kindName ≠ name := h c (by simp)
    rw [if_neg (by simpa using hc)]
    rw [ih (fun y hy => h y (by simp [hy]))]
    rfl

theorem replaceByKind_kinds {l : List Config} {name : String} {x : Config} {l' : List Config}
    (h : replaceByKind l name x = some l') (hx : x.kindName = name) :
    kinds l' = kinds l := by
  induction l generalizing l' with
  | nil => cases h
  | cons c cs ih =>
    simp only [replaceByKind] at h
    split at h
    · cases h
      have : c.kindName = name := by simp_all
      simp [kinds, hx, this]
    · cases hre : replaceByKind cs name x with
      | none => rw [hre] at h; cases h
      | some l'' =>
        rw [hre] at h
        cases h
        simp [kinds] at ih ⊢
        exact ih hre

theorem replaceByKind_mem {l : List Config} {name : String} {x : Config} {l' : List Config}
    (h : replaceByKind l name x = some l') : ∀ y ∈ l', y = x ∨ y ∈ l := by
  induction l generalizing l' with
  | nil => cases h
  | cons c cs ih =>
    simp only [replaceByKind] at h
    split at h
    · cases h
      intro y hy
      cases hy with
      | head => exact Or.inl rfl
      | tail _ hy' => exact Or.inr (List.mem_cons_of_mem _ hy')
    · cases hre : replaceByKind cs name x with
      | none => rw [hre] at h; cases h
      | some l'' =>
        rw [hre] at h
        cases h
        intro y hy
        cases hy with
        | head => exact Or.inr (List.mem_cons_self _ _)
        | tail _ hy' =>
          cases ih hre y hy' with
          | inl he => exact Or.inl he
          | inr hm => exact Or.inr (List.mem_cons_of_mem _ hm)

theorem replaceByKind_get {l : List Config} {name : String} {x : Config} {l' : List Config}
    (h : replaceByKind l name x = some l') :
    ∀ i, l'.get? i = l.get? i ∨
      (∃ y, l.get? i = some y ∧ y.kindName = name ∧ l'.get? i = some x) := by
  induction l generalizing l' with
  | nil => cases h
  | cons c cs ih =>
    simp only [replaceByKind] at h
    split at h
    · cases h
      intro i
      cases i with
      | zero =>
        refine Or.inr ⟨c, rfl, ?_, rfl⟩
        simp_all
      | succ n => exact Or.inl rfl
    · cases hre : replaceByKind cs name x with
      | none => rw [hre] at h; cases h
      | some l'' =>
        rw [hre] at h
        cases h
        intro i
        cases i with
        | zero => exact Or.inl rfl
        | succ n => exact ih hre n

theorem add_config_label (s : Configuration) (x : Config) :
    (s.add_config x).label = s.label := by
  unfold Configuration.add_config
  split <;> rfl

theorem add_config_program (s : Configuration) (x : Config) :
    (s.add_config x).program = s.program := by
  unfold Configuration.add_config
  split <;> rfl

theorem add_config_mem {s : Configuration} {x : Config} :
    ∀ y ∈ (s.add_config x).configuration, y = x ∨ y ∈ s.configuration := by
  unfold Configuration.add_config
  split
  case h_1 l heq =>
    intro y hy
    exact replaceByKind_mem heq y hy
  case h_2 heq =>
    intro y hy
    simp at hy
    cases hy with
    | inl hm => exact Or.inr hm
    | inr he => exact Or.inl he

theorem add_config_nodup {s : Configuration} {x : Config}
    (h : (kinds s.configuration).Nodup) :
    (kinds (s.add_config x).configuration).Nodup := by
  unfold Configuration.add_config
  split
  case h_1 l heq =>
    rwa [replaceByKind_kinds heq rfl]
  case h_2 heq =>
    have hno := replaceByKind_none heq
    simp only [kinds, List.map_append, List.map_cons, List.map_nil] at *
    rw [List.nodup_append]
    refine ⟨h, List.nodup_singleton _, ?_⟩
    intro a ha hb
    simp at hb
    simp only [List.mem_map] at ha
    obtain ⟨y, hy, hya⟩ := ha
    exact hno y hy (hya.trans hb)

theorem add_config_append {s : Configuration} {x : Config}
    (h : ∀ y ∈ s.configuration, y.kindName ≠ x.kindName) :
    s.add_config x = { s with configuration := s.configuration ++ [x] } := by
  unfold Configuration.add_config
  rw [replaceByKind_none_of_no_match h]

theorem buildConfigs_fields {pc : PathChecks} :
    ∀ {l : List Config} {acc r : Configuration}, buildConfigs pc acc l = .ok r →
      r.label = acc.label ∧ r.program = acc.program := by
  intro l
  induction l with
  | nil =>
    intro acc r h
    simp only [buildConfigs] at h
    cases h
    exact ⟨rfl, rfl⟩
  | cons c rest ih =>
    intro acc r h
    simp only [buildConfigs] at h
    cases hc : Config.check pc c with
    | error e => rw [hc] at h; cases h
    | ok c' =>
      rw [hc] at h
      have := ih h
      rw [add_config_label, add_config_program] at this
      exact this

theorem buildConfigs_invariant {pc : PathChecks} :
    ∀ {l : List Config} {acc r : Configuration},
      (kinds acc.configuration).Nodup →
      (∀ x ∈ acc.configuration, Config.check pc x = .ok x) →
      buildConfigs pc acc l = .ok r →
      (kinds r.configuration).Nodup ∧
        ∀ x ∈ r.configuration, Config.check pc x = .ok x := by
  intro l
  induction l with
  | nil =>
    intro acc r hnd hok h
    simp only [buildConfigs] at h
    cases h
    exact ⟨hnd, hok⟩
  | cons c rest ih =>
    intro acc r hnd hok h
    simp only [buildConfigs] at h
    cases hc : Config.check pc c with
    | error e => rw [hc] at h; cases h
    | ok c' =>
      rw [hc] at h
      have hcc : c' = c := config_check_eq hc
      subst hcc
      refine ih (add_config_nodup hnd) ?_ h
      intro x hx
      cases add_config_mem x hx with
      | inl he => rw [he]; exact hc
      | inr hm => exact hok x hm

theorem buildConfigs_identity {pc : PathChecks} :
    ∀ {l : List Config} {acc : Configuration},
      (∀ x ∈ l, Config.check pc x = .ok x) →
      (kinds l).Nodup →
      (∀ k ∈ kinds l, k ∉ kinds acc.configuration) →
      buildConfigs pc acc l = .ok { acc with configuration := acc.configuration ++ l } := by
  intro l
  induction l with
  | nil =>
    intro acc _ _ _
    simp only [buildConfigs, List.append_nil]
  | cons c rest ih =>
    intro acc hok hnd hdisj
    simp only [buildConfigs]
    rw [hok c (by simp)]
    show buildConfigs pc (acc.add_config c) rest =
      Except.ok { acc with configuration := acc.configuration ++ c :: rest }
    have hnotin : ∀ y ∈ acc.configuration, y.kindName ≠ c.kindName := by
      intro y hy he
      exact hdisj c.kindName (by simp [kinds]) (by rw [← he] at *; exact List.mem_map_of_mem _ hy)
    rw [add_config_append hnotin]
    have hrest := @ih { acc with configuration := acc.configuration ++ [c] }
      (fun x hx => hok x (by simp [hx]))
      (by simp only [kinds, List.map_cons] at hnd; exact hnd.of_cons)
      ?_
    · rw [hrest]
      simp
    · intro k hk
      simp only [kinds, List.map_append, List.map_cons, List.map_nil, List.mem_append,
        List.mem_singleton]
      intro hmem
      cases hmem with
      | inl hm => exact hdisj k (by simp [kinds] at hk ⊢; exact Or.inr hk) hm
      | inr he =>
        simp only [kinds, List.map_cons, List.nodup_cons] at hnd
        rw [he] at hk
        exact hnd.1 hk


theorem isPrefixOf_append_self (l t : List Char) : l.isPrefixOf (l ++ t) = true := by
  induction l with
  | nil => simp [List.isPrefixOf]
  | cons a as ih => simp [List.isPrefixOf, ih]

theorem dom_append_data (s : String) :
    (TASKER_TASK_NAME ++ "." ++ s).data = (TASKER_TASK_NAME ++ ".").data ++ s.data := by
  obtain ⟨d⟩ := s
  rfl

theorem strStarts_dom (s : String) :
    strStarts (TASKER_TASK_NAME ++ ".") (TASKER_TASK_NAME ++ "." ++ s) = true := by
  unfold strStarts
  rw [dom_append_data]
  exact isPrefixOf_append_self _ _

theorem strDrop_dom (s : String) :
    strDrop ((TASKER_TASK_NAME ++ ".").data.length) (TASKER_TASK_NAME ++ "." ++ s) = s := by
  unfold strDrop
  rw [dom_append_data, List.drop_left]

/-- `to_yaml` on a configuration whose label carries the appended domain
strips the domain back off and keeps everything else. -/
theorem to_yaml_append_domain (s p : String) (cfg : List Config) :
    Configuration.to_yaml ⟨TASKER_TASK_NAME ++ "." ++ s, p, cfg⟩ = ⟨s, p, cfg⟩ := by
  unfold Configuration.to_yaml
  rw [if_pos (by exact strStarts_dom s)]
  rw [show (⟨TASKER_TASK_NAME ++ "." ++ s, p, cfg⟩ : Configuration).label =
    TASKER_TASK_NAME ++ "." ++ s from rfl]
  rw [strDrop_dom]

/-- C1: for every configuration accepted by validation, serializing with
`to_yaml` and re-parsing it with `from_yaml` (over the same filesystem)
yields the same configuration: same label, program and option list. -/
theorem C1_validated_roundtrip {pc : PathChecks} {doc c : Configuration}
    (h : Configuration.from_yaml pc doc = .ok c) :
    Configuration.from_yaml pc c.to_yaml = .ok c := by
  unfold Configuration.from_yaml at h
  cases hcl : doc.check_label with
  | error e => rw [hcl] at h; cases h
  | ok d1 =>
    rw [hcl] at h
    have hvalid : d1 = doc ∧ is_valid_label doc.label = true := by
      unfold Configuration.check_label at hcl
      split at hcl <;> simp_all
    obtain ⟨heq1, hvl⟩ := hvalid
    rw [heq1] at h
    have h2 : (match Configuration.check_program pc doc with
        | Except.error e => Except.error e
        | Except.ok d2 =>
          let d3 := d2.append_domain
          buildConfigs pc ⟨d3.label, d3.program, []⟩ d3.configuration) = Except.ok c := h
    cases hcp : doc.check_program pc with
    | error e => rw [hcp] at h2; cases h2
    | ok d2 =>
      rw [hcp] at h2
      have hprog : d2 = doc ∧ strStarts "/" doc.program = true ∧
          pc.is_file doc.program = true := by
        unfold Configuration.check_program at hcp
        split at hcp
        · cases hcp
        · split at hcp <;> simp_all
      obtain ⟨heq2, habs, hfile⟩ := hprog
      rw [heq2] at h2
      have h' : buildConfigs pc
          ⟨TASKER_TASK_NAME ++ "." ++ doc.label, doc.program, []⟩
          doc.configuration = .ok c := h2
      obtain ⟨hnd, hok⟩ := buildConfigs_invariant (by simp [kinds]) (by simp) h'
      obtain ⟨hclabel, hcprog⟩ := buildConfigs_fields h'
      have hc3 : c = ⟨TASKER_TASK_NAME ++ "." ++ doc.label, doc.program, c.configuration⟩ := by
        cases c
        simp_all
      rw [hc3, to_yaml_append_domain]
      unfold Configuration.from_yaml
      have hstep1 : Configuration.check_label ⟨doc.label, doc.program, c.configuration⟩ =
          .ok ⟨doc.label, doc.program, c.configuration⟩ := by
        unfold Configuration.check_label
        rw [if_pos (by exact hvl)]
      rw [hstep1]
      show (match Configuration.check_program pc ⟨doc.label, doc.program, c.configuration⟩ with
        | Except.error e => Except.error e
        | Except.ok d2 =>
          let d3 := d2.append_domain
          buildConfigs pc ⟨d3.label, d3.program, []⟩ d3.configuration) =
        Except.ok ⟨TASKER_TASK_NAME ++ "." ++ doc.label, doc.program, c.configuration⟩
      have hstep2 : Configuration.check_program pc ⟨doc.label, doc.program, c.configuration⟩ =
          .ok ⟨doc.label, doc.program, c.configuration⟩ := by
        unfold Configuration.check_program
        rw [show (⟨doc.label, doc.program, c.configuration⟩ : Configuration).program =
          doc.program from rfl]
        rw [habs, hfile]
        rfl
      rw [hstep2]
      show buildConfigs pc
        ⟨TASKER_TASK_NAME ++ "." ++ doc.label, doc.program, []⟩ c.configuration =
        Except.ok ⟨TASKER_TASK_NAME ++ "." ++ doc.label, doc.program, c.configuration⟩
      have hbuild := @buildConfigs_identity pc c.configuration
        ⟨TASKER_TASK_NAME ++ "." ++ doc.label, doc.program, []⟩
        hok hnd (by simp [kinds])
      rw [hbuild]
      simp


/-- Witness for C1 at a concrete validated configuration. -/
theorem C1_validated_roundtrip_witness :
    Configuration.from_yaml pcW docW = .ok cW ∧
    Configuration.from_yaml pcW cW.to_yaml = .ok cW :=
  ⟨by rfl, @C1_validated_roundtrip pcW docW cW (by rfl)⟩

/-! ## C2: validation rejects out-of-domain documents -/

theorem check_option_range_some_err {lo hi i : Int} {o : Option Int}
    (hmem : o = some i) (hout : i < lo ∨ i > hi) :
    check_option_range lo hi o = .error .ConfigRangeError := by
  subst hmem
  simp [check_option_range, check_range, hout]

theorem cal_check_isErr {ci : CalendarInterval}
    (h : isErr (check_option_range 0 59 ci.minute) = true ∨
      isErr (check_option_range 0 23 ci.hour) = true ∨
      isErr (check_option_range 1 31 ci.day) = true ∨
      isErr (check_option_range 0 7 ci.weekday) = true ∨
      isErr (check_option_range 1 12 ci.month) = true) :
    isErr ci.check = true := by
  unfold CalendarInterval.check
  repeat' split
  all_goals simp_all [isErr]

theorem rl_check_isErr {rl : ResourceLimit}
    (h : isErr (check_option_range 0 500 rl.number_of_processes) = true) :
    isErr rl.check = true := by
  unfold ResourceLimit.check
  repeat' split
  all_goals simp_all [isErr]

theorem check_label_ok_eq {c d : Configuration} (h : c.check_label = .ok d) :
    d = c ∧ is_valid_label c.label = true := by
  unfold Configuration.check_label at h
  split at h <;> simp_all

theorem check_program_ok_eq {pc : PathChecks} {c d : Configuration}
    (h : c.check_program pc = .ok d) : d = c := by
  unfold Configuration.check_program at h
  split at h
  · cases h
  · split at h <;> simp_all

theorem buildConfigs_err {pc : PathChecks} :
    ∀ {l : List Config} {acc : Configuration} {entry : Config}, entry ∈ l →
      isErr (Config.check pc entry) = true →
      isErr (buildConfigs pc acc l) = true := by
  intro l
  induction l with
  | nil => intro acc entry hm; cases hm
  | cons c rest ih =>
    intro acc entry hm hbad
    simp only [buildConfigs]
    cases hc : Config.check pc c with
    | error e => simp [isErr]
    | ok c' =>
      cases hm with
      | head => rw [hc] at hbad; simp [isErr] at hbad
      | tail _ hm' => exact ih hm' hbad

/-- C2: validation — `Configuration::from_yaml` together with the
per-kind check functions — rejects with an error (and produces no
configuration): any label failing the namespaced-identifier pattern;
any non-absolute program path; any `CalendarInterval` field outside its
range (minute 0–59, hour 0–23, day 1–31, weekday 0–7, month 1–12); any
`ResourceLimit` process count outside 0–500; and any document one of
whose entries fails its per-kind check. -/
theorem C2_validation_rejects :
    (∀ (pc : PathChecks) (doc : Configuration), is_valid_label doc.label = false →
      Configuration.from_yaml pc doc = .error .ConfigLabelError) ∧
    (∀ (pc : PathChecks) (doc : Configuration), strStarts "/" doc.program = false →
      isErr (Configuration.from_yaml pc doc) = true) ∧
    (∀ (ci : CalendarInterval) (i : Int), ci.minute = some i → i < 0 ∨ i > 59 →
      isErr ci.check = true) ∧
    (∀ (ci : CalendarInterval) (i : Int), ci.hour = some i → i < 0 ∨ i > 23 →
      isErr ci.check = true) ∧
    (∀ (ci : CalendarInterval) (i : Int), ci.day = some i → i < 1 ∨ i > 31 →
      isErr ci.check = true) ∧
    (∀ (ci : CalendarInterval) (i : Int), ci.weekday = some i → i < 0 ∨ i > 7 →
      isErr ci.check = true) ∧
    (∀ (ci : CalendarInterval) (i : Int), ci.month = some i → i < 1 ∨ i > 12 →
      isErr ci.check = true) ∧
    (∀ (rl : ResourceLimit) (i : Int), rl.number_of_processes = some i → i < 0 ∨ i > 500 →
      isErr rl.check = true) ∧
    (∀ (pc : PathChecks) (doc : Configuration) (entry : Config),
      entry ∈ doc.configuration → isErr (Config.check pc entry) = true →
      isErr (Configuration.from_yaml pc doc) = true) := by
  refine ⟨?_, ?_, ?_, ?_, ?_, ?_, ?_, ?_, ?_⟩
  · intro pc doc h
    unfold Configuration.from_yaml Configuration.check_label
    simp [h]
  · intro pc doc h
    unfold Configuration.from_yaml
    cases hcl : doc.check_label with
    | error e => simp [isErr]
    | ok d1 =>
      obtain ⟨rfl, _⟩ := check_label_ok_eq hcl
      unfold Configuration.check_program
      simp [h, isErr]
  · intro ci i hmem hout
    exact cal_check_isErr (Or.inl (by rw [check_option_range_some_err hmem hout]; rfl))
  · intro ci i hmem hout
    exact cal_check_isErr (Or.inr (Or.inl (by rw [check_option_range_some_err hmem hout]; rfl)))
  · intro ci i hmem hout
    exact cal_check_isErr
      (Or.inr (Or.inr (Or.inl (by rw [check_option_range_some_err hmem hout]; rfl))))
  · intro ci i hmem hout
    exact cal_check_isErr
      (Or.inr (Or.inr (Or.inr (Or.inl (by rw [check_option_range_some_err hmem hout]; rfl)))))
  · intro ci i hmem hout
    exact cal_check_isErr
      (Or.inr (Or.inr (Or.inr (Or.inr (by rw [check_option_range_some_err hmem hout]; rfl)))))
  · intro rl i hmem hout
    exact rl_check_isErr (by rw [check_option_range_some_err hmem hout]; rfl)
  · intro pc doc entry hm hbad
    unfold Configuration.from_yaml
    cases hcl : doc.check_label with
    | error e => simp [isErr]
    | ok d1 =>
      obtain ⟨rfl, -⟩ := check_label_ok_eq hcl
      show isErr (match Configuration.check_program pc d1 with
        | Except.error e => Except.error e
        | Except.ok d2 =>
          let d3 := d2.append_domain
          buildConfigs pc ⟨d3.label, d3.program, []⟩ d3.configuration) = true
      cases hcp : Configuration.check_program pc d1 with
      | error e => simp [isErr]
      | ok d2 =>
        have heq := check_program_ok_eq hcp
        subst heq
        exact buildConfigs_err hm hbad

/-- Witness for C2 at the spec's concrete rejection examples: label
`"bad label!"`, relative program `"python"`, calendar hour 30, process
count 501 (the last two both at check level and through
`from_yaml`). -/
theorem C2_validation_rejects_witness :
    Configuration.from_yaml pcW ⟨"bad label!", "/usr/bin/python", []⟩ =
      .error .ConfigLabelError ∧
    isErr (Configuration.from_yaml pcW ⟨"test_task", "python", []⟩) = true ∧
    isErr (CalendarInterval.check ⟨some 15, some 30, none, none, none⟩) = true ∧
    isErr (ResourceLimit.check ⟨none, none, none, some 501, none, none⟩) = true ∧
    isErr (Configuration.from_yaml pcW ⟨"test_task", "/usr/bin/python",
      [.StartCalendarInterval [⟨some 15, some 30, none, none, none⟩]]⟩) = true ∧
    isErr (Configuration.from_yaml pcW ⟨"test_task", "/usr/bin/python",
      [.SoftResourceLimit ⟨none, none, none, some 501, none, none⟩]⟩) = true :=
  ⟨C2_validation_rejects.1 pcW ⟨"bad label!", "/usr/bin/python", []⟩ (by rfl),
   C2_validation_rejects.2.1 pcW ⟨"test_task", "python", []⟩ (by rfl),
   C2_validation_rejects.2.2.2.1 ⟨some 15, some 30, none, none, none⟩ 30 rfl (by decide),
   C2_validation_rejects.2.2.2.2.2.2.2.1 ⟨none, none, none, some 501, none, none⟩ 501 rfl
     (by decide),
   C2_validation_rejects.2.2.2.2.2.2.2.2 pcW
     ⟨"test_task", "/usr/bin/python",
       [.StartCalendarInterval [⟨some 15, some 30, none, none, none⟩]]⟩
     (.StartCalendarInterval [⟨some 15, some 30, none, none, none⟩]) (by simp) (by rfl),
   C2_validation_rejects.2.2.2.2.2.2.2.2 pcW
     ⟨"test_task", "/usr/bin/python",
       [.SoftResourceLimit ⟨none, none, none, some 501, none, none⟩]⟩
     (.SoftResourceLimit ⟨none, none, none, some 501, none, none⟩) (by simp) (by rfl)⟩


/-! ## Filesystem traversal lemmas (utils.rs `move_by_rename`)

The traversal only touches the `dirs`/`files` components of the world
(it never talks to launchd and never logs), directories only accumulate
during the loop, and the loop itself never panics; the single panic
site of `move_by_rename_inner` is the final `remove_dir_all(from)`
unwrap, which cannot fire because a successful loop has read `from` as
a directory and directories are never removed during the loop. -/

theorem renameFile_same {src dst : Path} {w w' : World}
    (h : renameFile src dst w = some w') :
    w'.dirs = w.dirs ∧ w'.env = w.env ∧ w'.launchd = w.launchd ∧ w'.log = w.log := by
  cases hg : getFile src w with
  | none =>
    have heq : renameFile src dst w = none := by simp only [renameFile, hg]
    rw [heq] at h
    cases h
  | some d =>
    by_cases hc : (w.dirs.contains dst.dropLast) = true
    · have heq : renameFile src dst w = some (setFile dst d (eraseFile src w)) := by
        simp only [renameFile, hg, if_pos hc]
      rw [heq] at h
      cases h
      exact ⟨rfl, rfl, rfl, rfl⟩
    · have heq : renameFile src dst w = none := by
        simp only [renameFile, hg, if_neg hc]
      rw [heq] at h
      cases h

theorem create_dir_all_same {p : Path} {w w' : World}
    (h : create_dir_all p w = some w') :
    (∀ q ∈ w.dirs, q ∈ w'.dirs) ∧ w'.files = w.files ∧ w'.env = w.env ∧
      w'.launchd = w.launchd ∧ w'.log = w.log := by
  unfold create_dir_all at h
  split at h
  · cases h
  · cases h
    exact ⟨fun q hq => by simp [hq], rfl, rfl, rfl, rfl⟩

theorem create_dir_io_same {p : Path} {w w' : World}
    (h : create_dir_io p w = some w') :
    (∀ q ∈ w.dirs, q ∈ w'.dirs) ∧ w'.env = w.env ∧
      w'.launchd = w.launchd ∧ w'.log = w.log := by
  unfold create_dir_io at h
  split at h
  · cases h; exact ⟨fun q hq => hq, rfl, rfl, rfl⟩
  · have := create_dir_all_same h
    exact ⟨this.1, this.2.2.1, this.2.2.2.1, this.2.2.2.2⟩

theorem entry_go_same (dest : Path) :
    ∀ (es : List Entry) (acc : List Path) (w : World),
      (entry_go dest es acc w).2.dirs = w.dirs ∧
      (entry_go dest es acc w).2.env = w.env ∧
      (entry_go dest es acc w).2.launchd = w.launchd ∧
      (entry_go dest es acc w).2.log = w.log := by
  intro es
  induction es with
  | nil => intro acc w; exact ⟨rfl, rfl, rfl, rfl⟩
  | cons e rest ih =>
    intro acc w
    cases e with
    | dirE d =>
      have heq : entry_go dest (.dirE d :: rest) acc w = entry_go dest rest (acc ++ [d]) w := by
        simp only [entry_go]
      rw [heq]
      exact ih _ _
    | fileE f =>
      cases hf : f.getLast? with
      | none =>
        have heq : entry_go dest (.fileE f :: rest) acc w = entry_go dest rest acc w := by
          simp only [entry_go, hf]
        rw [heq]
        exact ih _ _
      | some name =>
        cases hr : renameFile f (dest ++ [name]) w with
        | none =>
          have heq : entry_go dest (.fileE f :: rest) acc w = (none, w) := by
            simp only [entry_go, hf, hr]
          rw [heq]
          exact ⟨rfl, rfl, rfl, rfl⟩
        | some w1 =>
          have heq : entry_go dest (.fileE f :: rest) acc w = entry_go dest rest acc w1 := by
            simp only [entry_go, hf, hr]
          rw [heq]
          obtain ⟨hd, he, hl, hg⟩ := renameFile_same hr
          obtain ⟨ihd, ihe, ihl, ihg⟩ := ih acc w1
          exact ⟨by rw [ihd, hd], by rw [ihe, he], by rw [ihl, hl], by rw [ihg, hg]⟩

/-- The `dest` expression of one loop iteration. -/
def loopDest (orP : Path) (ir : Nat) (working : Path) : Path :=
  if (working.drop ir).length == 0 then orP else orP ++ working.drop ir

theorem move_loop_cons_eq (toP : Path) (ir : Nat) (orP : Path) (n : Nat)
    (working : Path) (rest : List Path) (w : World) :
    move_loop toP ir orP (n + 1) (working :: rest) w =
      match create_dir_io toP w with
      | none => (.err .IoError, w)
      | some w1 =>
        match read_dir working w1 with
        | none => (.err .IoError, w1)
        | some entries =>
          match entry_go (loopDest orP ir working) entries [] w1 with
          | (none, w2) => (.err .IoError, w2)
          | (some pushed, w2) =>
            move_loop toP ir orP n (pushed.reverse ++ rest) w2 := by
  simp only [move_loop, loopDest]

theorem move_loop_same (toP : Path) (ir : Nat) (orP : Path) :
    ∀ (fuel : Nat) (stack : List Path) (w : World),
      (∀ q ∈ w.dirs, q ∈ (move_loop toP ir orP fuel stack w).2.dirs) ∧
      (move_loop toP ir orP fuel stack w).2.env = w.env ∧
      (move_loop toP ir orP fuel stack w).2.launchd = w.launchd ∧
      (move_loop toP ir orP fuel stack w).2.log = w.log := by
  intro fuel
  induction fuel with
  | zero =>
    intro stack w
    cases stack with
    | nil => exact ⟨fun q hq => hq, rfl, rfl, rfl⟩
    | cons a rest => exact ⟨fun q hq => hq, rfl, rfl, rfl⟩
  | succ n ih =>
    intro stack w
    cases stack with
    | nil => exact ⟨fun q hq => hq, rfl, rfl, rfl⟩
    | cons working rest =>
      cases hc : create_dir_io toP w with
      | none =>
        have heq : move_loop toP ir orP (n + 1) (working :: rest) w = (.err .IoError, w) := by
          simp only [move_loop_cons_eq, hc]
        rw [heq]
        exact ⟨fun q hq => hq, rfl, rfl, rfl⟩
      | some w1 =>
        obtain ⟨hcd, hce, hcl, hcg⟩ := create_dir_io_same hc
        cases hr : read_dir working w1 with
        | none =>
          have heq : move_loop toP ir orP (n + 1) (working :: rest) w = (.err .IoError, w1) := by
            simp only [move_loop_cons_eq, hc, hr]
          rw [heq]
          exact ⟨fun q hq => hcd q hq, hce, hcl, hcg⟩
        | some entries =>
          cases hgo : entry_go (loopDest orP ir working) entries [] w1 with
          | mk res w2 =>
            obtain ⟨hgd, hge, hgl, hgg⟩ := entry_go_same (loopDest orP ir working) entries [] w1
            rw [hgo] at hgd hge hgl hgg
            cases res with
            | none =>
              have heq : move_loop toP ir orP (n + 1) (working :: rest) w =
                  (.err .IoError, w2) := by
                simp only [move_loop_cons_eq, hc, hr, hgo]
              rw [heq]
              exact ⟨fun q hq => by rw [hgd]; exact hcd q hq,
                by rw [hge, hce], by rw [hgl, hcl], by rw [hgg, hcg]⟩
            | some pushed =>
              have heq : move_loop toP ir orP (n + 1) (working :: rest) w =
                  move_loop toP ir orP n (pushed.reverse ++ rest) w2 := by
                simp only [move_loop_cons_eq, hc, hr, hgo]
              rw [heq]
              obtain ⟨ihd, ihe, ihl, ihg⟩ := ih (pushed.reverse ++ rest) w2
              exact ⟨fun q hq => ihd q (by rw [hgd]; exact hcd q hq),
                by rw [ihe, hge, hce], by rw [ihl, hgl, hcl], by rw [ihg, hgg, hcg]⟩

theorem move_loop_not_panic (toP : Path) (ir : Nat) (orP : Path) :
    ∀ (fuel : Nat) (stack : List Path) (w : World),
      (move_loop toP ir orP fuel stack w).1 ≠ .panicked := by
  intro fuel
  induction fuel with
  | zero =>
    intro stack w
    cases stack with
    | nil => simp [move_loop]
    | cons a rest => simp [move_loop]
  | succ n ih =>
    intro stack w
    cases stack with
    | nil => simp [move_loop]
    | cons working rest =>
      cases hc : create_dir_io toP w with
      | none =>
        have heq : move_loop toP ir orP (n + 1) (working :: rest) w = (.err .IoError, w) := by
          simp only [move_loop_cons_eq, hc]
        rw [heq]
        simp
      | some w1 =>
        cases hr : read_dir working w1 with
        | none =>
          have heq : move_loop toP ir orP (n + 1) (working :: rest) w = (.err .IoError, w1) := by
            simp only [move_loop_cons_eq, hc, hr]
          rw [heq]
          simp
        | some entries =>
          cases hgo : entry_go (loopDest orP ir working) entries [] w1 with
          | mk res w2 =>
            cases res with
            | none =>
              have heq : move_loop toP ir orP (n + 1) (working :: rest) w =
                  (.err .IoError, w2) := by
                simp only [move_loop_cons_eq, hc, hr, hgo]
              rw [heq]
              simp
            | some pushed =>
              have heq : move_loop toP ir orP (n + 1) (working :: rest) w =
                  move_loop toP ir orP n (pushed.reverse ++ rest) w2 := by
                simp only [move_loop_cons_eq, hc, hr, hgo]
              rw [heq]
              exact ih (pushed.reverse ++ rest) w2

theorem read_dir_mem {p : Path} {w : World} {es : List Entry}
    (h : read_dir p w = some es) : p ∈ w.dirs := by
  unfold read_dir at h
  split at h
  · next hc => exact List.elem_iff.1 hc
  · cases h

theorem move_loop_cons_ok_mem (toP : Path) (ir : Nat) (orP : Path) :
    ∀ {fuel : Nat} {working : Path} {rest : List Path} {w w' : World},
      move_loop toP ir orP fuel (working :: rest) w = (.ok (), w') →
      working ∈ w'.dirs := by
  intro fuel
  induction fuel with
  | zero => intro working rest w w' h; simp [move_loop] at h
  | succ n ih =>
    intro working rest w w' h
    cases hc : create_dir_io toP w with
    | none =>
      have heq : move_loop toP ir orP (n + 1) (working :: rest) w = (.err .IoError, w) := by
        simp only [move_loop_cons_eq, hc]
      rw [heq] at h
      cases h
    | some w1 =>
      cases hr : read_dir working w1 with
      | none =>
        have heq : move_loop toP ir orP (n + 1) (working :: rest) w = (.err .IoError, w1) := by
          simp only [move_loop_cons_eq, hc, hr]
        rw [heq] at h
        cases h
      | some entries =>
        have hmem : working ∈ w1.dirs := read_dir_mem hr
        cases hgo : entry_go (loopDest orP ir working) entries [] w1 with
        | mk res w2 =>
          obtain ⟨hgd, -, -, -⟩ := entry_go_same (loopDest orP ir working) entries [] w1
          rw [hgo] at hgd
          cases res with
          | none =>
            have heq : move_loop toP ir orP (n + 1) (working :: rest) w =
                (.err .IoError, w2) := by
              simp only [move_loop_cons_eq, hc, hr, hgo]
            rw [heq] at h
            cases h
          | some pushed =>
            have heq : move_loop toP ir orP (n + 1) (working :: rest) w =
                move_loop toP ir orP n (pushed.reverse ++ rest) w2 := by
              simp only [move_loop_cons_eq, hc, hr, hgo]
            rw [heq] at h
            have hsame := (move_loop_same toP ir orP n (pushed.reverse ++ rest) w2).1
            rw [h] at hsame
            exact hsame working (by rw [hgd]; exact hmem)

theorem remove_dir_all_of_mem {p : Path} {w : World} (h : p ∈ w.dirs) :
    remove_dir_all p w = some
      { w with
        dirs := w.dirs.filter (fun d => !p.isPrefixOf d),
        files := w.files.filter (fun f => !p.isPrefixOf f.1) } := by
  unfold remove_dir_all
  rw [if_pos (List.elem_iff.2 h)]

theorem move_by_rename_inner_not_panic (fromP toP : Path) (w : World) :
    (move_by_rename_inner fromP toP w).1 ≠ .panicked := by
  cases hc : create_dir_io toP w with
  | none =>
    have heq : move_by_rename_inner fromP toP w = (.err .IoError, w) := by
      simp only [move_by_rename_inner, hc]
    rw [heq]
    simp
  | some w1 =>
    cases hml : move_loop toP fromP.length toP (w1.dirs.length + 1) [fromP] w1 with
    | mk res w2 =>
      cases res with
      | ok a =>
        have hmem : fromP ∈ w2.dirs := move_loop_cons_ok_mem _ _ _ hml
        have heq : move_by_rename_inner fromP toP w =
            (.ok (), { w2 with
              dirs := w2.dirs.filter (fun d => !fromP.isPrefixOf d),
              files := w2.files.filter (fun f => !fromP.isPrefixOf f.1) }) := by
          simp only [move_by_rename_inner, hc, hml, remove_dir_all_of_mem hmem]
        rw [heq]
        simp
      | err e =>
        have heq : move_by_rename_inner fromP toP w = (.err e, w2) := by
          simp only [move_by_rename_inner, hc, hml]
        rw [heq]
        simp
      | panicked =>
        have := move_loop_not_panic toP fromP.length toP (w1.dirs.length + 1) [fromP] w1
        rw [hml] at this
        simp at this

theorem move_by_rename_not_panic (fromP toP : Path) (w : World) :
    (move_by_rename fromP toP w).1 ≠ .panicked := by
  unfold move_by_rename
  cases hmi : move_by_rename_inner fromP toP w with
  | mk res w2 =>
    have := move_by_rename_inner_not_panic fromP toP w
    rw [hmi] at this
    cases res with
    | ok a => simp
    | err e => simp
    | panicked => simp_all

theorem try_clear_output_not_panic (label : String) (w : World) :
    (try_clear_output label w).1 ≠ .panicked := by
  unfold try_clear_output
  cases hmv : move_by_rename (get_output_folder_name w.env label)
      (get_trash_folder_name w.env label ++ ["out"]) w with
  | mk res w2 =>
    have := move_by_rename_not_panic (get_output_folder_name w.env label)
      (get_trash_folder_name w.env label ++ ["out"]) w
    rw [hmv] at this
    cases res with
    | ok a => simp
    | err e => simp
    | panicked => simp_all


/-! ## C3: delete is best-effort and always succeeds -/

theorem delete_tail_ok (label : String) (w : World) :
    (match try_clear_output label w with
      | (.panicked, w5) => ((.panicked : Outcome Unit), w5)
      | (_, w5) => (.ok (), w5)).1 = .ok () := by
  cases htc : try_clear_output label w with
  | mk r w5 =>
    cases r with
    | panicked =>
      have := try_clear_output_not_panic label w
      rw [htc] at this
      simp at this
    | ok a => rfl
    | err e => rfl

/-- C3: `delete_task` always reports success — the unload, the
task-folder move, the meta-yaml copy, the meta-yaml removal and the
output-folder move are each attempted with their errors discarded, so
no failing step blocks the remaining ones — and in particular deleting
a task whose task directory is missing but whose meta yaml and output
directory exist still relocates those parts to trash and succeeds:
the meta yaml is copied into the trash folder and removed from meta,
and the output file ends up under the trash `out` folder with the
output directory gone. -/
theorem C3_delete_always_succeeds :
    (∀ (label : String) (w : World), (delete_task label w).1 = .ok ()) ∧
    (delete_task lblD wDelW).1 = .ok () ∧
    getFile (get_trash_folder_name envW lblD ++ [lblD ++ ".yaml"]) (delete_task lblD wDelW).2 =
      some (.yamlDoc docT) ∧
    getFile (metaYamlPath envW lblD) (delete_task lblD wDelW).2 = none ∧
    getFile (get_trash_folder_name envW lblD ++ ["out", STD_OUT_FILE]) (delete_task lblD wDelW).2 =
      some .blob ∧
    ((delete_task lblD wDelW).2.dirs.contains (get_output_folder_name envW lblD)) = false := by
  refine ⟨?_, by rfl, by rfl, by rfl, by rfl, by rfl⟩
  intro label w
  cases hmv : move_by_rename (get_task_folder_name (unload_task label w).2.env label)
      (get_trash_folder_name (unload_task label w).2.env label) (unload_task label w).2 with
  | mk res w2 =>
    cases res with
    | panicked =>
      have := move_by_rename_not_panic (get_task_folder_name (unload_task label w).2.env label)
        (get_trash_folder_name (unload_task label w).2.env label) (unload_task label w).2
      rw [hmv] at this
      simp at this
    | ok a =>
      have heq : delete_task label w =
          (match try_clear_output label (delete_meta_steps label w2) with
            | (.panicked, w5) => ((.panicked : Outcome Unit), w5)
            | (_, w5) => (.ok (), w5)) := by
        simp only [delete_task, hmv]
      rw [heq]
      exact delete_tail_ok label _
    | err e =>
      have heq : delete_task label w =
          (match try_clear_output label (delete_meta_steps label w2) with
            | (.panicked, w5) => ((.panicked : Outcome Unit), w5)
            | (_, w5) => (.ok (), w5)) := by
        simp only [delete_task, hmv]
      rw [heq]
      exact delete_tail_ok label _


/-! ## C8: move_by_rename — file-table lemmas -/

theorem find_filter_keep (P : Path × FileData → Bool) {q : Path}
    (hq : ∀ d, P (q, d) = true) :
    ∀ fs : List (Path × FileData),
      (fs.filter P).find? (fun f => f.1 == q) = fs.find? (fun f => f.1 == q) := by
  intro fs
  induction fs with
  | nil => rfl
  | cons f fs ih =>
    by_cases hfq : f.1 = q
    · have hPf : P f = true := by
        have : f = (q, f.2) := by rw [← hfq]
        rw [this]
        exact hq f.2
      rw [List.filter_cons_of_pos hPf]
      rw [List.find?_cons_of_pos _ (by simp [hfq]), List.find?_cons_of_pos _ (by simp [hfq])]
    · cases hPf : P f with
      | true =>
        rw [List.filter_cons_of_pos hPf]
        rw [List.find?_cons_of_neg _ (by simp [hfq]), List.find?_cons_of_neg _ (by simp [hfq])]
        exact ih
      | false =>
        rw [List.filter_cons_of_neg (by simp [hPf])]
        rw [List.find?_cons_of_neg _ (by simp [hfq])]
        exact ih

theorem getFile_eraseFile_ne {q p : Path} (h : q ≠ p) (w : World) :
    getFile q (eraseFile p w) = getFile q w := by
  unfold getFile eraseFile
  simp only []
  rw [find_filter_keep _ (fun d => by simp [h]) w.files]

theorem getFile_eraseFile_same (p : Path) (w : World) :
    getFile p (eraseFile p w) = none := by
  unfold getFile eraseFile
  simp only []
  rw [List.find?_eq_none.2]
  · rfl
  · intro x hx
    simp only [List.mem_filter] at hx
    simp only [beq_iff_eq]
    intro hxe
    simp [hxe] at hx

theorem getFile_setFile_same (p : Path) (d : FileData) (w : World) :
    getFile p (setFile p d w) = some d := by
  unfold getFile setFile
  rw [List.find?_cons_of_pos _ (by simp)]
  rfl

theorem getFile_setFile_ne {q p : Path} (h : q ≠ p) (d : FileData) (w : World) :
    getFile q (setFile p d w) = getFile q w := by
  unfold setFile
  show (((p, d) :: (eraseFile p w).files).find? (fun f => f.1 == q)).map (fun f => f.2) =
    getFile q w
  rw [List.find?_cons_of_neg _ (by simp [Ne.symm h])]
  exact getFile_eraseFile_ne h w

theorem getFile_congr_files {w w' : World} (h : w'.files = w.files) (p : Path) :
    getFile p w' = getFile p w := by
  unfold getFile
  rw [h]

theorem renameFile_eq {src dst : Path} {w : World} {d : FileData}
    (hs : getFile src w = some d) (hc : w.dirs.contains dst.dropLast = true) :
    renameFile src dst w = some (setFile dst d (eraseFile src w)) := by
  simp only [renameFile, hs, if_pos hc]

/-- Flat renaming pass: `entry_go` over the direct child files
`fromP ++ [n]` renames every one of them into `toP ++ [n]`. -/
theorem entry_go_flat (toP fromP : Path) (hne : toP ≠ fromP) :
    ∀ (names : List String) (w : World),
      toP ∈ w.dirs →
      names.Nodup →
      (∀ n ∈ names, (getFile (fromP ++ [n]) w).isSome = true) →
      ∃ w2, entry_go toP (names.map (fun n => Entry.fileE (fromP ++ [n]))) [] w = (some [], w2) ∧
        w2.dirs = w.dirs ∧
        (∀ n ∈ names, getFile (toP ++ [n]) w2 = getFile (fromP ++ [n]) w ∧
          getFile (fromP ++ [n]) w2 = none) ∧
        (∀ q : Path, (∀ n ∈ names, q ≠ fromP ++ [n] ∧ q ≠ toP ++ [n]) →
          getFile q w2 = getFile q w) := by
  intro names
  induction names with
  | nil =>
    intro w _ _ _
    exact ⟨w, rfl, rfl, by simp, fun q _ => rfl⟩
  | cons n ns ih =>
    intro w hto hnd hsome
    obtain ⟨d, hd⟩ : ∃ d, getFile (fromP ++ [n]) w = some d := by
      cases hg : getFile (fromP ++ [n]) w with
      | none => have := hsome n (by simp); rw [hg] at this; cases this
      | some d => exact ⟨d, rfl⟩
    have hdl : (toP ++ [n]).dropLast = toP := by rw [List.dropLast_concat]
    have hrn : renameFile (fromP ++ [n]) (toP ++ [n]) w =
        some (setFile (toP ++ [n]) d (eraseFile (fromP ++ [n]) w)) :=
      renameFile_eq hd (by rw [hdl]; exact List.elem_iff.2 hto)
    set w1 := setFile (toP ++ [n]) d (eraseFile (fromP ++ [n]) w) with hw1
    have hw1dirs : w1.dirs = w.dirs := rfl
    have hstep : entry_go toP ((n :: ns).map (fun m => Entry.fileE (fromP ++ [m]))) [] w =
        entry_go toP (ns.map (fun m => Entry.fileE (fromP ++ [m]))) [] w1 := by
      simp only [List.map_cons, entry_go, List.getLast?_concat, hrn]
    have hlast : ∀ (a b : Path) (x y : String), a ++ [x] = b ++ [y] → a = b ∧ x = y := by
      intro a b x y he
      have h2 := congrArg List.dropLast he
      rw [List.dropLast_concat, List.dropLast_concat] at h2
      have h3 := congrArg List.getLast? he
      rw [List.getLast?_concat, List.getLast?_concat] at h3
      exact ⟨h2, Option.some.inj h3⟩
    have hnotin : n ∉ ns := (List.nodup_cons.1 hnd).1
    have hne_paths : ∀ m ∈ ns, fromP ++ [m] ≠ fromP ++ [n] ∧ fromP ++ [m] ≠ toP ++ [n] := by
      intro m hm
      constructor
      · intro he
        rw [(hlast _ _ _ _ he).2] at hm
        exact hnotin hm
      · intro he
        exact hne (hlast _ _ _ _ he).1.symm
    have hsome1 : ∀ m ∈ ns, (getFile (fromP ++ [m]) w1).isSome = true := by
      intro m hm
      rw [hw1, getFile_setFile_ne (hne_paths m hm).2 d, getFile_eraseFile_ne (hne_paths m hm).1]
      exact hsome m (by simp [hm])
    obtain ⟨w2, hgo, hdirs, hmoved, hother⟩ :=
      ih w1 (by rw [hw1dirs]; exact hto) (List.nodup_cons.1 hnd).2 hsome1
    have hfn_ne : fromP ++ [n] ≠ toP ++ [n] := by
      intro he
      exact hne (hlast _ _ _ _ he).1.symm
    refine ⟨w2, by rw [hstep]; exact hgo, by rw [hdirs, hw1dirs], ?_, ?_⟩
    · intro m hm
      cases hm with
      | head =>
        constructor
        · have h1 : getFile (toP ++ [n]) w2 = getFile (toP ++ [n]) w1 := by
            apply hother
            intro m' hm'
            constructor
            · intro he
              exact hne (hlast _ _ _ _ he).1
            · intro he
              rw [(hlast _ _ _ _ he).2] at hnotin
              exact hnotin hm'
          rw [h1, hw1, getFile_setFile_same, hd]
        · have h1 : getFile (fromP ++ [n]) w2 = getFile (fromP ++ [n]) w1 := by
            apply hother
            intro m' hm'
            constructor
            · intro he
              rw [(hlast _ _ _ _ he).2] at hnotin
              exact hnotin hm'
            · intro he
              exact hne (hlast _ _ _ _ he).1.symm
          rw [h1, hw1, getFile_setFile_ne hfn_ne, getFile_eraseFile_same]
      | tail _ hm' =>
        have h1 := (hmoved m hm').1
        have h2 := (hmoved m hm').2
        constructor
        · rw [h1, hw1, getFile_setFile_ne (hne_paths m hm').2, getFile_eraseFile_ne
            (hne_paths m hm').1]
        · exact h2
    · intro q hq
      have h1 : getFile q w2 = getFile q w1 := hother q (fun m hm => hq m (by simp [hm]))
      rw [h1, hw1, getFile_setFile_ne (hq n (by simp)).2, getFile_eraseFile_ne (hq n (by simp)).1]


theorem move_loop_nil (toP : Path) (ir : Nat) (orP : Path) (fuel : Nat) (w : World) :
    move_loop toP ir orP fuel [] w = (.ok (), w) := by
  cases fuel <;> simp [move_loop]

theorem mem_pathPrefixes_self {p : Path} (h : p ≠ []) : p ∈ pathPrefixes p := by
  unfold pathPrefixes
  have hlen : 0 < p.length := List.length_pos.2 h
  refine List.mem_map.2 ⟨p.length - 1, List.mem_range.2 (by omega), ?_⟩
  rw [Nat.sub_add_cancel hlen, List.take_length]

/-- Flat relocation: when the source directory has no subdirectories,
its files are exactly the direct children `fromP ++ [n]`, and the
destination root is fresh and creatable, `move_by_rename` succeeds,
every leaf ends up at `toP ++ [n]`, the sources are gone and the
source directory is removed. -/
theorem move_by_rename_flat {fromP toP : Path} {w : World} {names : List String}
    (hne : toP ≠ fromP) (hto_ne : toP ≠ [])
    (hpre : fromP.isPrefixOf toP = false)
    (hpre2 : ∀ n ∈ names, fromP.isPrefixOf (toP ++ [n]) = false)
    (hfresh : metadataOk toP w = false)
    (hnof : ∀ q ∈ pathPrefixes toP, (w.files.any (fun f => f.1 == q)) = false)
    (hfrom : fromP ∈ w.dirs)
    (hnosub : childDirs fromP w = [])
    (hchild : childFiles fromP w = names.map (fun n => fromP ++ [n]))
    (hnd : names.Nodup) :
    (move_by_rename fromP toP w).1 = .ok () ∧
    (∀ n ∈ names,
      getFile (toP ++ [n]) (move_by_rename fromP toP w).2 = getFile (fromP ++ [n]) w ∧
      getFile (fromP ++ [n]) (move_by_rename fromP toP w).2 = none) ∧
    fromP ∉ (move_by_rename fromP toP w).2.dirs := by
  -- the destination root is created
  have hguard : ¬ (((pathPrefixes toP).any (fun q => w.files.any (fun f => f.1 == q))) = true) := by
    intro hx
    obtain ⟨q, hq, hqf⟩ := List.any_eq_true.1 hx
    rw [hnof q hq] at hqf
    cases hqf
  have hcda : create_dir_all toP w = some
      { w with dirs := w.dirs ++ (pathPrefixes toP).filter (fun q => !w.dirs.contains q) } := by
    unfold create_dir_all
    rw [if_neg hguard]
  set w1 : World :=
    { w with dirs := w.dirs ++ (pathPrefixes toP).filter (fun q => !w.dirs.contains q) }
    with hw1def
  have hcio : create_dir_io toP w = some w1 := by
    unfold create_dir_io
    rw [if_neg (by rw [hfresh]; exact Bool.false_ne_true), hcda]
  have hw1files : w1.files = w.files := rfl
  have hnotdir : w.dirs.contains toP = false := by
    unfold metadataOk at hfresh
    exact (Bool.or_eq_false_iff.1 hfresh).1
  have htow1 : toP ∈ w1.dirs := by
    rw [hw1def]
    refine List.mem_append.2 (Or.inr ?_)
    refine List.mem_filter.2 ⟨mem_pathPrefixes_self hto_ne, by rw [hnotdir]; rfl⟩
  have hcontains1 : w1.dirs.contains toP = true := List.elem_iff.2 htow1
  have hfromw1 : fromP ∈ w1.dirs := List.mem_append.2 (Or.inl hfrom)
  -- inside the loop the destination-root creation is a no-op
  have hcio1 : create_dir_io toP w1 = some w1 := by
    have hmet : metadataOk toP w1 = true := by
      unfold metadataOk
      rw [hcontains1]
      rfl
    unfold create_dir_io
    rw [if_pos hmet]
  -- the source has no subdirectories even after the creation
  have hcd1 : childDirs fromP w1 = [] := by
    unfold childDirs
    rw [hw1def]
    show (w.dirs ++ (pathPrefixes toP).filter (fun q => !w.dirs.contains q)).filter _ = []
    rw [List.filter_append]
    have h1 : childDirs fromP w = [] := hnosub
    unfold childDirs at h1
    rw [h1, List.nil_append]
    refine List.filter_eq_nil_iff.2 ?_
    intro q hq
    have hqpre : q <+: toP := by
      obtain ⟨i, -, hqi⟩ := List.mem_map.1 (List.mem_filter.1 hq).1
      rw [← hqi]
      exact List.take_prefix _ _
    intro hcontra
    simp only [Bool.and_eq_true] at hcontra
    have hf : fromP.isPrefixOf q = true := hcontra.1
    have : fromP <+: toP := (List.isPrefixOf_iff_prefix.1 hf).trans hqpre
    rw [List.isPrefixOf_iff_prefix.2 this] at hpre
    cases hpre
  have hcf1 : childFiles fromP w1 = names.map (fun n => fromP ++ [n]) := by
    unfold childFiles
    rw [hw1files]
    exact hchild
  have hread : read_dir fromP w1 = some (names.map (fun n => Entry.fileE (fromP ++ [n]))) := by
    unfold read_dir
    rw [if_pos (List.elem_iff.2 hfromw1), hcd1, hcf1]
    simp [List.map_map]
  have hdest : loopDest toP fromP.length fromP = toP := by
    simp [loopDest, List.drop_length]
  have hpres : ∀ n ∈ names, (getFile (fromP ++ [n]) w1).isSome = true := by
    intro n hn
    rw [getFile_congr_files hw1files]
    have hmemc : fromP ++ [n] ∈ childFiles fromP w := by
      rw [hchild]
      exact List.mem_map.2 ⟨n, hn, rfl⟩
    unfold childFiles at hmemc
    have hmemf : fromP ++ [n] ∈ w.files.map (fun f => f.1) := (List.mem_filter.1 hmemc).1
    obtain ⟨f, hf, hfe⟩ := List.mem_map.1 hmemf
    unfold getFile
    rw [Option.isSome_map']
    refine (List.find?_isSome).2 ⟨f, hf, by simp [hfe]⟩
  obtain ⟨w2, hgo, hw2dirs, hmoved, hother⟩ :=
    entry_go_flat toP fromP hne names w1 htow1 hnd hpres
  have hloop : move_loop toP fromP.length toP (w1.dirs.length + 1) [fromP] w1 =
      (.ok (), w2) := by
    rw [move_loop_cons_eq]
    rw [hcio1]
    show (match read_dir fromP w1 with
      | none => ((.err .IoError : Outcome Unit), w1)
      | some entries =>
        match entry_go (loopDest toP fromP.length fromP) entries [] w1 with
        | (none, w2) => (.err .IoError, w2)
        | (some pushed, w2) =>
          move_loop toP fromP.length toP w1.dirs.length (pushed.reverse ++ []) w2) = _
    rw [hread]
    show (match entry_go (loopDest toP fromP.length fromP)
        (names.map (fun n => Entry.fileE (fromP ++ [n]))) [] w1 with
      | (none, w2) => ((.err .IoError : Outcome Unit), w2)
      | (some pushed, w2) =>
        move_loop toP fromP.length toP w1.dirs.length (pushed.reverse ++ []) w2) = _
    rw [hdest, hgo]
    show move_loop toP fromP.length toP w1.dirs.length ([] ++ []) w2 = _
    rw [List.nil_append, move_loop_nil]
  have hfromw2 : fromP ∈ w2.dirs := by rw [hw2dirs]; exact hfromw1
  have hinner : move_by_rename_inner fromP toP w =
      (.ok (), { w2 with
        dirs := w2.dirs.filter (fun d => !fromP.isPrefixOf d),
        files := w2.files.filter (fun f => !fromP.isPrefixOf f.1) }) := by
    simp only [move_by_rename_inner, hcio, hloop, remove_dir_all_of_mem hfromw2]
  have hmv : move_by_rename fromP toP w =
      (.ok (), { w2 with
        dirs := w2.dirs.filter (fun d => !fromP.isPrefixOf d),
        files := w2.files.filter (fun f => !fromP.isPrefixOf f.1) }) := by
    simp only [move_by_rename, hinner]
  rw [hmv]
  refine ⟨rfl, ?_, ?_⟩
  · intro n hn
    constructor
    · show getFile (toP ++ [n])
        { w2 with
          dirs := w2.dirs.filter (fun d => !fromP.isPrefixOf d),
          files := w2.files.filter (fun f => !fromP.isPrefixOf f.1) } = _
      unfold getFile
      show ((w2.files.filter (fun f => !fromP.isPrefixOf f.1)).find?
        (fun f => f.1 == toP ++ [n])).map (fun f => f.2) = _
      rw [find_filter_keep _ (fun d => by rw [hpre2 n hn]; rfl)]
      have := (hmoved n hn).1
      unfold getFile at this
      rw [this]
    · have h2 := (hmoved n hn).2
      unfold getFile at h2 ⊢
      have h2' : w2.files.find? (fun f => f.1 == fromP ++ [n]) = none :=
        Option.map_eq_none'.1 h2
      show ((w2.files.filter (fun f => !fromP.isPrefixOf f.1)).find?
        (fun f => f.1 == fromP ++ [n])).map (fun f => f.2) = none
      rw [List.find?_eq_none.2]
      · rfl
      · intro x hx
        exact List.find?_eq_none.1 h2' x (List.mem_of_mem_filter hx)
  · intro hmem
    have := (List.mem_filter.1 hmem).2
    rw [List.isPrefixOf_iff_prefix.2 (List.prefix_refl fromP)] at this
    cases this

theorem move_by_rename_err_is_rename (fromP toP : Path) (w : World) :
    ∀ e, (move_by_rename fromP toP w).1 = .err e → e = .RenameError := by
  intro e h
  cases hmi : move_by_rename_inner fromP toP w with
  | mk res w2 =>
    cases res with
    | ok a =>
      have heq : move_by_rename fromP toP w = (.ok a, w2) := by
        simp only [move_by_rename, hmi]
      rw [heq] at h
      cases h
    | err e' =>
      have heq : move_by_rename fromP toP w = (.err .RenameError, w2) := by
        simp only [move_by_rename, hmi]
      rw [heq] at h
      injection h with h'
      exact h'.symm
    | panicked =>
      have heq : move_by_rename fromP toP w = (.panicked, w2) := by
        simp only [move_by_rename, hmi]
      rw [heq] at h
      cases h

/-- C8 counterexample: on the nested tree `src/f1`, `src/sub/f2` the
relocation does not complete.  `move_by_rename_inner` creates the
destination *root* (`to`) before each rename instead of the leaf's
destination directory (`dest`), so the rename of `sub/f2` into the
never-created `dst/sub` fails: the call reports `RenameError` with `f1`
already moved and `sub/f2` left behind.  Partial completion is indeed
observable, but the claim's universally quantified "relocates the tree"
is false for any source tree with a subdirectory. -/
theorem C8_nested_tree_counterexample :
    (move_by_rename ["src"] ["dst"] wNestedW).1 = .err .RenameError ∧
    getFile ["dst", "f1"] (move_by_rename ["src"] ["dst"] wNestedW).2 = some .blob ∧
    getFile ["src", "sub", "f2"] (move_by_rename ["src"] ["dst"] wNestedW).2 = some .blob ∧
    getFile ["dst", "sub", "f2"] (move_by_rename ["src"] ["dst"] wNestedW).2 = none ∧
    ["src"] ∈ (move_by_rename ["src"] ["dst"] wNestedW).2.dirs :=
  ⟨rfl, rfl, rfl, rfl, by decide⟩

/-- C8 (amended): `move_by_rename` relocates a *flat* source tree (one
with no subdirectories) by renaming each leaf file — on success every
leaf sits at the destination under its own name, the sources are gone
and the now-empty source directory is removed; and for every call
whatsoever the operation never panics and any failing step surfaces as
the typed `Error::RenameError`, leaving partial completion observable.
For nested trees the relocation itself fails (see the counterexample). -/
theorem C8_flat_rename_and_typed_errors {fromP toP : Path} {w : World} {names : List String}
    (hne : toP ≠ fromP) (hto_ne : toP ≠ [])
    (hpre : fromP.isPrefixOf toP = false)
    (hpre2 : ∀ n ∈ names, fromP.isPrefixOf (toP ++ [n]) = false)
    (hfresh : metadataOk toP w = false)
    (hnof : ∀ q ∈ pathPrefixes toP, (w.files.any (fun f => f.1 == q)) = false)
    (hfrom : fromP ∈ w.dirs)
    (hnosub : childDirs fromP w = [])
    (hchild : childFiles fromP w = names.map (fun n => fromP ++ [n]))
    (hnd : names.Nodup) :
    ((move_by_rename fromP toP w).1 = .ok () ∧
      (∀ n ∈ names,
        getFile (toP ++ [n]) (move_by_rename fromP toP w).2 = getFile (fromP ++ [n]) w ∧
        getFile (fromP ++ [n]) (move_by_rename fromP toP w).2 = none) ∧
      fromP ∉ (move_by_rename fromP toP w).2.dirs) ∧
    (∀ (f t : Path) (u : World),
      (move_by_rename f t u).1 ≠ .panicked ∧
      ∀ e, (move_by_rename f t u).1 = .err e → e = .RenameError) :=
  ⟨move_by_rename_flat hne hto_ne hpre hpre2 hfresh hnof hfrom hnosub hchild hnd,
   fun f t u => ⟨move_by_rename_not_panic f t u, move_by_rename_err_is_rename f t u⟩⟩

/-- Witness for the amended C8 on the concrete flat tree `src/f1`. -/
theorem C8_flat_rename_and_typed_errors_witness :
    (move_by_rename ["src"] ["dst"] wFlatW).1 = .ok () ∧
    getFile ["dst", "f1"] (move_by_rename ["src"] ["dst"] wFlatW).2 = some .blob ∧
    getFile ["src", "f1"] (move_by_rename ["src"] ["dst"] wFlatW).2 = none ∧
    ["src"] ∉ (move_by_rename ["src"] ["dst"] wFlatW).2.dirs := by
  have h := @C8_flat_rename_and_typed_errors ["src"] ["dst"] wFlatW ["f1"]
    (by decide) (by decide) (by decide) (by decide) (by decide) (by decide)
    (by decide) (by decide) (by decide) (by decide)
  obtain ⟨⟨h1, h2, h3⟩, -⟩ := h
  refine ⟨h1, ?_, (h2 "f1" (by decide)).2, h3⟩
  show getFile (["dst"] ++ ["f1"]) (move_by_rename ["src"] ["dst"] wFlatW).2 = some FileData.blob
  rw [(h2 "f1" (by decide)).1]
  rfl

/-! ## C5: unload_task invokes the unload verb only when loaded -/

theorem try_remove_plist_spec (label : String) (u : World) :
    (try_remove_plist label u).files = u.files.filter (fun f => f.1 ≠ get_plist_path label) ∧
    getFile (get_plist_path label) (try_remove_plist label u) = none ∧
    (try_remove_plist label u).log = u.log ∧
    (try_remove_plist label u).launchd = u.launchd := by
  unfold try_remove_plist delete_file_check
  cases hg : getFile (get_plist_path label) u with
  | some d =>
    exact ⟨rfl, getFile_eraseFile_same _ _, rfl, rfl⟩
  | none =>
    refine ⟨?_, hg, rfl, rfl⟩
    symm
    refine List.filter_eq_self.2 ?_
    intro a ha
    have hfind : u.files.find? (fun f => f.1 == get_plist_path label) = none :=
      Option.map_eq_none'.1 hg
    have := List.find?_eq_none.1 hfind a ha
    simpa using this

/-- C5 counterexample: on a world where the label is *not* loaded,
`unload_task` reports `FailedToUnloadTask` and the call log stays
empty — the external unload verb was never attempted, refuting the
claim's "always attempts the external unload verb". -/
theorem C5_verb_skipped_counterexample :
    (unload_task lblT wUnloadedW).1 = .err .FailedToUnloadTask ∧
    (unload_task lblT wUnloadedW).2.log = [] :=
  ⟨rfl, rfl⟩

/-- C5 (amended): `unload_task` queries the load state first and
invokes the external unload verb *only when the label is loaded*
(exactly one `unloadCall` is appended to the call log when loaded, none
otherwise); the best-effort descriptor (plist) removal is always
attempted, so the plist file is absent afterwards; and the call reports
failure exactly when the label was not loaded beforehand. -/
theorem C5_unload_verb_only_when_loaded (label : String) (w : World) :
    (unload_task label w).1 =
      (if is_loaded label w then Outcome.ok () else Outcome.err Err.FailedToUnloadTask) ∧
    (unload_task label w).2.log =
      w.log ++ (if is_loaded label w then [ExtCall.unloadCall label] else []) ∧
    (unload_task label w).2.files = w.files.filter (fun f => f.1 ≠ get_plist_path label) ∧
    getFile (get_plist_path label) (unload_task label w).2 = none := by
  cases hl : is_loaded label w with
  | false =>
    have heq : unload_task label w =
        (.err .FailedToUnloadTask, try_remove_plist label w) := by
      simp [unload_task, hl]
    obtain ⟨hf, hg, hlog, -⟩ := try_remove_plist_spec label w
    rw [heq]
    exact ⟨rfl, by rw [hlog]; simp, hf, hg⟩
  | true =>
    have heq : unload_task label w =
        (.ok (), try_remove_plist label (unload_inner label w)) := by
      simp [unload_task, hl]
    obtain ⟨hf, hg, hlog, -⟩ := try_remove_plist_spec label (unload_inner label w)
    rw [heq]
    refine ⟨rfl, ?_, ?_, hg⟩
    · rw [hlog]
      show (unload_inner label w).log = _
      simp [unload_inner]
    · rw [hf]
      rfl


/-! ## C4: update_yaml is label-checked, existence-checked and
state-preserving -/

theorem move_by_rename_inner_ctl (fromP toP : Path) (w : World) :
    (move_by_rename_inner fromP toP w).2.launchd = w.launchd ∧
    (move_by_rename_inner fromP toP w).2.log = w.log := by
  cases hc : create_dir_io toP w with
  | none =>
    have heq : move_by_rename_inner fromP toP w = (.err .IoError, w) := by
      simp only [move_by_rename_inner, hc]
    rw [heq]
    exact ⟨rfl, rfl⟩
  | some w1 =>
    obtain ⟨-, -, hcl, hcg⟩ := create_dir_io_same hc
    obtain ⟨-, -, hll, hlg⟩ :=
      move_loop_same toP fromP.length toP (w1.dirs.length + 1) [fromP] w1
    cases hml : move_loop toP fromP.length toP (w1.dirs.length + 1) [fromP] w1 with
    | mk res w2 =>
      rw [hml] at hll hlg
      cases res with
      | ok a =>
        have hmem : fromP ∈ w2.dirs := move_loop_cons_ok_mem _ _ _ hml
        have heq : move_by_rename_inner fromP toP w =
            (.ok (), { w2 with
              dirs := w2.dirs.filter (fun d => !fromP.isPrefixOf d),
              files := w2.files.filter (fun f => !fromP.isPrefixOf f.1) }) := by
          simp only [move_by_rename_inner, hc, hml, remove_dir_all_of_mem hmem]
        rw [heq]
        exact ⟨by rw [show ({ w2 with
              dirs := w2.dirs.filter (fun d => !fromP.isPrefixOf d),
              files := w2.files.filter (fun f => !fromP.isPrefixOf f.1) } : World).launchd =
            w2.launchd from rfl, hll, hcl],
          by rw [show ({ w2 with
              dirs := w2.dirs.filter (fun d => !fromP.isPrefixOf d),
              files := w2.files.filter (fun f => !fromP.isPrefixOf f.1) } : World).log =
            w2.log from rfl, hlg, hcg]⟩
      | err e =>
        have heq : move_by_rename_inner fromP toP w = (.err e, w2) := by
          simp only [move_by_rename_inner, hc, hml]
        rw [heq]
        exact ⟨by rw [show ((Outcome.err e, w2) : Outcome Unit × World).2.launchd =
            w2.launchd from rfl, hll, hcl],
          by rw [show ((Outcome.err e, w2) : Outcome Unit × World).2.log = w2.log from rfl,
            hlg, hcg]⟩
      | panicked =>
        have heq : move_by_rename_inner fromP toP w = (.panicked, w2) := by
          simp only [move_by_rename_inner, hc, hml]
        rw [heq]
        exact ⟨by rw [show ((Outcome.panicked, w2) : Outcome Unit × World).2.launchd =
            w2.launchd from rfl, hll, hcl],
          by rw [show ((Outcome.panicked, w2) : Outcome Unit × World).2.log = w2.log from rfl,
            hlg, hcg]⟩

theorem move_by_rename_ctl (fromP toP : Path) (w : World) :
    (move_by_rename fromP toP w).2.launchd = w.launchd ∧
    (move_by_rename fromP toP w).2.log = w.log := by
  obtain ⟨h1, h2⟩ := move_by_rename_inner_ctl fromP toP w
  cases hmi : move_by_rename_inner fromP toP w with
  | mk res w2 =>
    rw [hmi] at h1 h2
    cases res with
    | ok a =>
      have heq : move_by_rename fromP toP w = (.ok a, w2) := by
        simp only [move_by_rename, hmi]
      rw [heq]
      exact ⟨h1, h2⟩
    | err e =>
      have heq : move_by_rename fromP toP w = (.err .RenameError, w2) := by
        simp only [move_by_rename, hmi]
      rw [heq]
      exact ⟨h1, h2⟩
    | panicked =>
      have heq : move_by_rename fromP toP w = (.panicked, w2) := by
        simp only [move_by_rename, hmi]
      rw [heq]
      exact ⟨h1, h2⟩

theorem try_clear_output_ctl (label : String) (w : World) :
    (try_clear_output label w).2.launchd = w.launchd ∧
    (try_clear_output label w).2.log = w.log := by
  obtain ⟨h1, h2⟩ := move_by_rename_ctl (get_output_folder_name w.env label)
    (get_trash_folder_name w.env label ++ ["out"]) w
  cases hmv : move_by_rename (get_output_folder_name w.env label)
      (get_trash_folder_name w.env label ++ ["out"]) w with
  | mk res w2 =>
    rw [hmv] at h1 h2
    cases res with
    | ok a =>
      have heq : try_clear_output label w = (.ok (), w2) := by
        simp only [try_clear_output, hmv]
      rw [heq]
      exact ⟨h1, h2⟩
    | err e =>
      have heq : try_clear_output label w = (.ok (), w2) := by
        simp only [try_clear_output, hmv]
      rw [heq]
      exact ⟨h1, h2⟩
    | panicked =>
      have heq : try_clear_output label w = (.panicked, w2) := by
        simp only [try_clear_output, hmv]
      rw [heq]
      exact ⟨h1, h2⟩

theorem create_dir_check_ctl (p : Path) (w : World) :
    (create_dir_check p w).2.launchd = w.launchd ∧
    (create_dir_check p w).2.log = w.log := by
  unfold create_dir_check
  split
  · exact ⟨rfl, rfl⟩
  · cases hc : create_dir_all p w with
    | some w1 =>
      obtain ⟨-, -, -, h1, h2⟩ := create_dir_all_same hc
      exact ⟨h1, h2⟩
    | none => exact ⟨rfl, rfl⟩

theorem chown_ctl (p : Path) (un gn : Option String) (w : World) :
    (chown_by_name_recursive p un gn w).2.launchd = w.launchd ∧
    (chown_by_name_recursive p un gn w).2.log = w.log := by
  unfold chown_by_name_recursive
  split <;> exact ⟨rfl, rfl⟩

theorem update_yaml_in_meta_ctl (yaml : Configuration) (label : String) (w : World) :
    (update_yaml_in_meta yaml label w).2.launchd = w.launchd ∧
    (update_yaml_in_meta yaml label w).2.log = w.log := by
  unfold update_yaml_in_meta
  split <;> exact ⟨rfl, rfl⟩

theorem process_config_ctl (config : Configuration) (w : World) :
    (process_config config w).2.launchd = w.launchd ∧
    (process_config config w).2.log = w.log := by
  obtain ⟨h1, h2⟩ := try_clear_output_ctl config.label w
  cases htc : try_clear_output config.label w with
  | mk r1 w1 =>
    rw [htc] at h1 h2
    cases r1 with
    | panicked =>
      have heq : process_config config w = (.panicked, w1) := by
        simp only [process_config, htc]
      rw [heq]
      exact ⟨h1, h2⟩
    | ok a =>
      obtain ⟨h3, h4⟩ := create_dir_check_ctl (get_output_folder_name w.env config.label) w1
      cases hcd : create_dir_check (get_output_folder_name w.env config.label) w1 with
      | mk r2 w2 =>
        rw [hcd] at h3 h4
        cases r2 with
        | err e =>
          have heq : process_config config w = (.err e, w2) := by
            simp only [process_config, htc, hcd]
          rw [heq]
          exact ⟨by rw [show ((Outcome.err e, w2) : Outcome Configuration × World).2 = w2
            from rfl, h3, h1], by rw [show ((Outcome.err e, w2) :
              Outcome Configuration × World).2 = w2 from rfl, h4, h2]⟩
        | panicked =>
          have heq : process_config config w = (.panicked, w2) := by
            simp only [process_config, htc, hcd]
          rw [heq]
          exact ⟨by rw [show ((Outcome.panicked, w2) : Outcome Configuration × World).2 = w2
            from rfl, h3, h1], by rw [show ((Outcome.panicked, w2) :
              Outcome Configuration × World).2 = w2 from rfl, h4, h2]⟩
        | ok b =>
          obtain ⟨h5, h6⟩ := chown_ctl (get_output_folder_name w.env config.label)
            (replace_task_root_alias (set_working_directory_as_root_alias config)
              config.label w.env).get_user_name
            (replace_task_root_alias (set_working_directory_as_root_alias config)
              config.label w.env).get_group_name w2
          cases hch : chown_by_name_recursive (get_output_folder_name w.env config.label)
              (replace_task_root_alias (set_working_directory_as_root_alias config)
                config.label w.env).get_user_name
              (replace_task_root_alias (set_working_directory_as_root_alias config)
                config.label w.env).get_group_name w2 with
          | mk r3 w3 =>
            rw [hch] at h5 h6
            cases r3 with
            | err e =>
              have heq : process_config config w = (.err e, w3) := by
                simp only [process_config, htc, hcd, hch]
              rw [heq]
              exact ⟨by rw [show ((Outcome.err e, w3) :
                  Outcome Configuration × World).2 = w3 from rfl, h5, h3, h1],
                by rw [show ((Outcome.err e, w3) :
                  Outcome Configuration × World).2 = w3 from rfl, h6, h4, h2]⟩
            | panicked =>
              have heq : process_config config w = (.panicked, w3) := by
                simp only [process_config, htc, hcd, hch]
              rw [heq]
              exact ⟨by rw [show ((Outcome.panicked, w3) :
                  Outcome Configuration × World).2 = w3 from rfl, h5, h3, h1],
                by rw [show ((Outcome.panicked, w3) :
                  Outcome Configuration × World).2 = w3 from rfl, h6, h4, h2]⟩
            | ok c =>
              have heq : (process_config config w).2 = w3 := by
                simp only [process_config, htc, hcd, hch]
              rw [heq]
              exact ⟨by rw [h5, h3, h1], by rw [h6, h4, h2]⟩
    | err e =>
      obtain ⟨h3, h4⟩ := create_dir_check_ctl (get_output_folder_name w.env config.label) w1
      cases hcd : create_dir_check (get_output_folder_name w.env config.label) w1 with
      | mk r2 w2 =>
        rw [hcd] at h3 h4
        cases r2 with
        | err e2 =>
          have heq : process_config config w = (.err e2, w2) := by
            simp only [process_config, htc, hcd]
          rw [heq]
          exact ⟨by rw [show ((Outcome.err e2, w2) : Outcome Configuration × World).2 = w2
            from rfl, h3, h1], by rw [show ((Outcome.err e2, w2) :
              Outcome Configuration × World).2 = w2 from rfl, h4, h2]⟩
        | panicked =>
          have heq : process_config config w = (.panicked, w2) := by
            simp only [process_config, htc, hcd]
          rw [heq]
          exact ⟨by rw [show ((Outcome.panicked, w2) : Outcome Configuration × World).2 = w2
            from rfl, h3, h1], by rw [show ((Outcome.panicked, w2) :
              Outcome Configuration × World).2 = w2 from rfl, h4, h2]⟩
        | ok b =>
          obtain ⟨h5, h6⟩ := chown_ctl (get_output_folder_name w.env config.label)
            (replace_task_root_alias (set_working_directory_as_root_alias config)
              config.label w.env).get_user_name
            (replace_task_root_alias (set_working_directory_as_root_alias config)
              config.label w.env).get_group_name w2
          cases hch : chown_by_name_recursive (get_output_folder_name w.env config.label)
              (replace_task_root_alias (set_working_directory_as_root_alias config)
                config.label w.env).get_user_name
              (replace_task_root_alias (set_working_directory_as_root_alias config)
                config.label w.env).get_group_name w2 with
          | mk r3 w3 =>
            rw [hch] at h5 h6
            cases r3 with
            | err e2 =>
              have heq : process_config config w = (.err e2, w3) := by
                simp only [process_config, htc, hcd, hch]
              rw [heq]
              exact ⟨by rw [show ((Outcome.err e2, w3) :
                  Outcome Configuration × World).2 = w3 from rfl, h5, h3, h1],
                by rw [show ((Outcome.err e2, w3) :
                  Outcome Configuration × World).2 = w3 from rfl, h6, h4, h2]⟩
            | panicked =>
              have heq : process_config config w = (.panicked, w3) := by
                simp only [process_config, htc, hcd, hch]
              rw [heq]
              exact ⟨by rw [show ((Outcome.panicked, w3) :
                  Outcome Configuration × World).2 = w3 from rfl, h5, h3, h1],
                by rw [show ((Outcome.panicked, w3) :
                  Outcome Configuration × World).2 = w3 from rfl, h6, h4, h2]⟩
            | ok c =>
              have heq : (process_config config w).2 = w3 := by
                simp only [process_config, htc, hcd, hch]
              rw [heq]
              exact ⟨by rw [h5, h3, h1], by rw [h6, h4, h2]⟩

theorem replace_task_root_alias_label (c : Configuration) (l : String) (env : EnvDirs) :
    (replace_task_root_alias c l env).label = c.label := rfl

theorem set_wd_label (c : Configuration) :
    (set_working_directory_as_root_alias c).label = c.label := by
  unfold set_working_directory_as_root_alias
  split
  · rfl
  · exact add_config_label c _

theorem process_config_label {config config' : Configuration} {w w' : World}
    (h : process_config config w = (.ok config', w')) :
    config'.label = config.label := by
  cases htc : try_clear_output config.label w with
  | mk r1 w1 =>
    cases r1 with
    | panicked =>
      have heq : process_config config w = (.panicked, w1) := by
        simp only [process_config, htc]
      rw [heq] at h
      simp at h
    | ok a =>
      cases hcd : create_dir_check (get_output_folder_name w.env config.label) w1 with
      | mk r2 w2 =>
        cases r2 with
        | err e =>
          have heq : process_config config w = (.err e, w2) := by
            simp only [process_config, htc, hcd]
          rw [heq] at h
          simp at h
        | panicked =>
          have heq : process_config config w = (.panicked, w2) := by
            simp only [process_config, htc, hcd]
          rw [heq] at h
          simp at h
        | ok b =>
          cases hch : chown_by_name_recursive (get_output_folder_name w.env config.label)
              (replace_task_root_alias (set_working_directory_as_root_alias config)
                config.label w.env).get_user_name
              (replace_task_root_alias (set_working_directory_as_root_alias config)
                config.label w.env).get_group_name w2 with
          | mk r3 w3 =>
            cases r3 with
            | err e =>
              have heq : process_config config w = (.err e, w3) := by
                simp only [process_config, htc, hcd, hch]
              rw [heq] at h
              simp at h
            | panicked =>
              have heq : process_config config w = (.panicked, w3) := by
                simp only [process_config, htc, hcd, hch]
              rw [heq] at h
              simp at h
            | ok c =>
              have heq : process_config config w =
                  (.ok ((((replace_task_root_alias
                      (set_working_directory_as_root_alias config) config.label
                      w.env).add_config
                    (.StandardOutPath (pathToStr (get_output_folder_name w.env config.label ++
                      [STD_OUT_FILE])))).add_config
                    (.StandardErrorPath (pathToStr (get_output_folder_name w.env config.label ++
                      [STD_ERR_FILE]))))), w3) := by
                simp only [process_config, htc, hcd, hch]
              rw [heq] at h
              simp only [Prod.mk.injEq, Outcome.ok.injEq] at h
              rw [← h.1]
              rw [add_config_label, add_config_label, replace_task_root_alias_label,
                set_wd_label]
    | err e =>
      cases hcd : create_dir_check (get_output_folder_name w.env config.label) w1 with
      | mk r2 w2 =>
        cases r2 with
        | err e2 =>
          have heq : process_config config w = (.err e2, w2) := by
            simp only [process_config, htc, hcd]
          rw [heq] at h
          simp at h
        | panicked =>
          have heq : process_config config w = (.panicked, w2) := by
            simp only [process_config, htc, hcd]
          rw [heq] at h
          simp at h
        | ok b =>
          cases hch : chown_by_name_recursive (get_output_folder_name w.env config.label)
              (replace_task_root_alias (set_working_directory_as_root_alias config)
                config.label w.env).get_user_name
              (replace_task_root_alias (set_working_directory_as_root_alias config)
                config.label w.env).get_group_name w2 with
          | mk r3 w3 =>
            cases r3 with
            | err e2 =>
              have heq : process_config config w = (.err e2, w3) := by
                simp only [process_config, htc, hcd, hch]
              rw [heq] at h
              simp at h
            | panicked =>
              have heq : process_config config w = (.panicked, w3) := by
                simp only [process_config, htc, hcd, hch]
              rw [heq] at h
              simp at h
            | ok c =>
              have heq : process_config config w =
                  (.ok ((((replace_task_root_alias
                      (set_working_directory_as_root_alias config) config.label
                      w.env).add_config
                    (.StandardOutPath (pathToStr (get_output_folder_name w.env config.label ++
                      [STD_OUT_FILE])))).add_config
                    (.StandardErrorPath (pathToStr (get_output_folder_name w.env config.label ++
                      [STD_ERR_FILE]))))), w3) := by
                simp only [process_config, htc, hcd, hch]
              rw [heq] at h
              simp only [Prod.mk.injEq, Outcome.ok.injEq] at h
              rw [← h.1]
              rw [add_config_label, add_config_label, replace_task_root_alias_label,
                set_wd_label]

theorem insertTask_subset (t : TaskInfo) :
    ∀ (s : List TaskInfo) {x : TaskInfo}, x ∈ s → x ∈ insertTask t s := by
  intro s
  induction s with
  | nil => intro x h; cases h
  | cons a as ih =>
    intro x h
    unfold insertTask
    split
    · exact List.mem_cons_of_mem t h
    · split
      · exact h
      · cases h with
        | head => exact List.mem_cons_self a _
        | tail _ h2 => exact List.mem_cons_of_mem a (ih h2)

theorem insertTask_mem (t : TaskInfo) :
    ∀ (s : List TaskInfo) {x : TaskInfo}, x ∈ insertTask t s → x = t ∨ x ∈ s := by
  intro s
  induction s with
  | nil =>
    intro x h
    unfold insertTask at h
    cases h with
    | head => exact Or.inl rfl
    | tail _ h2 => cases h2
  | cons a as ih =>
    intro x h
    unfold insertTask at h
    split at h
    · cases h with
      | head => exact Or.inl rfl
      | tail _ h2 => exact Or.inr h2
    · split at h
      · exact Or.inr h
      · cases h with
        | head => exact Or.inr (List.mem_cons_self a as)
        | tail _ h2 =>
          cases ih h2 with
          | inl he => exact Or.inl he
          | inr hm => exact Or.inr (List.mem_cons_of_mem a hm)

theorem insertTask_label (t : TaskInfo) :
    ∀ (s : List TaskInfo), ∃ x ∈ insertTask t s, x.label = t.label := by
  intro s
  induction s with
  | nil => exact ⟨t, List.mem_cons_self t [], rfl⟩
  | cons a as ih =>
    unfold insertTask
    split
    · exact ⟨t, List.mem_cons_self t _, rfl⟩
    · split
      · rename_i hbe
        refine ⟨a, List.mem_cons_self a as, ?_⟩
        have : t.label = a.label := by simpa using hbe
        rw [this]
      · obtain ⟨x, hx, hl⟩ := ih
        exact ⟨x, List.mem_cons_of_mem a hx, hl⟩

theorem foldl_insert_mem (P : TaskInfo → Bool) :
    ∀ (l : List TaskInfo) (init : List TaskInfo) {x : TaskInfo},
      x ∈ l.foldl (fun s t => if P t then insertTask t s else s) init →
      x ∈ l ∨ x ∈ init := by
  intro l
  induction l with
  | nil => intro init x h; exact Or.inr h
  | cons a as ih =>
    intro init x h
    rw [List.foldl_cons] at h
    cases hp : P a with
    | true =>
      rw [if_pos hp] at h
      cases ih (insertTask a init) h with
      | inl hm => exact Or.inl (List.mem_cons_of_mem a hm)
      | inr hm =>
        cases insertTask_mem a init hm with
        | inl he => exact Or.inl (he ▸ List.mem_cons_self a as)
        | inr hi => exact Or.inr hi
    | false =>
      rw [if_neg (by simp [hp])] at h
      cases ih init h with
      | inl hm => exact Or.inl (List.mem_cons_of_mem a hm)
      | inr hm => exact Or.inr hm

theorem foldl_insert_has (P : TaskInfo → Bool) :
    ∀ (l : List TaskInfo) (init : List TaskInfo) {label : String},
      ((∃ x ∈ init, x.label = label) ∨ (∃ t ∈ l, P t = true ∧ t.label = label)) →
      ∃ x ∈ l.foldl (fun s t => if P t then insertTask t s else s) init, x.label = label := by
  intro l
  induction l with
  | nil =>
    intro init label h
    cases h with
    | inl h2 => exact h2
    | inr h2 =>
      obtain ⟨t, ht, -⟩ := h2
      cases ht
  | cons a as ih =>
    intro init label h
    rw [List.foldl_cons]
    cases hp : P a with
    | true =>
      rw [if_pos rfl]
      refine ih (insertTask a init) ?_
      cases h with
      | inl hinit =>
        obtain ⟨x, hx, hl⟩ := hinit
        exact Or.inl ⟨x, insertTask_subset a init hx, hl⟩
      | inr hl =>
        obtain ⟨t, ht, hpt, hlt⟩ := hl
        cases ht with
        | head =>
          obtain ⟨x, hx, hxl⟩ := insertTask_label a init
          exact Or.inl ⟨x, hx, by rw [hxl, hlt]⟩
        | tail _ ht2 => exact Or.inr ⟨t, ht2, hpt, hlt⟩
    | false =>
      rw [if_neg Bool.false_ne_true]
      refine ih init ?_
      cases h with
      | inl hinit => exact Or.inl hinit
      | inr hl =>
        obtain ⟨t, ht, hpt, hlt⟩ := hl
        cases ht with
        | head => rw [hp] at hpt; cases hpt
        | tail _ ht2 => exact Or.inr ⟨t, ht2, hpt, hlt⟩

theorem liveTaskInfo_label (w : World) (e : LiveEntry) :
    (liveTaskInfo w e).label = e.label := by
  unfold liveTaskInfo
  cases hp : e.pid <;> rfl

theorem launchctl_list_mem {pattern : String} {u : World} {t : TaskInfo}
    (h : t ∈ launchctl_list pattern u) : ∃ e ∈ u.launchd, t.label = e.label := by
  unfold launchctl_list at h
  cases foldl_insert_mem _ (u.launchd.map (liveTaskInfo u)) [] h with
  | inl hm =>
    obtain ⟨e, he, hrfl⟩ := List.mem_map.1 hm
    exact ⟨e, he, by rw [← hrfl, liveTaskInfo_label]⟩
  | inr hm => cases hm

theorem is_loaded_false_of_no_entry {label : String} {u : World}
    (hno : ∀ e ∈ u.launchd, e.label ≠ label) : is_loaded label u = false := by
  unfold is_loaded
  refine List.any_eq_false.2 ?_
  intro t ht hc
  obtain ⟨e, he, hl⟩ := launchctl_list_mem ht
  have h2 : t.label = label := by simpa using hc
  exact hno e he (hl.symm.trans h2)

theorem strContains_self (s : String) : strContains s s = true := by
  unfold strContains
  refine List.any_eq_true.2 ⟨s.data, ?_, ?_⟩
  · exact (List.mem_tails _ _).2 (List.suffix_refl _)
  · exact List.isPrefixOf_iff_prefix.2 (List.prefix_refl _)

theorem strContains_dom (s : String) :
    strContains (TASKER_TASK_NAME ++ "." ++ s) TASKER_TASK_NAME = true := by
  unfold strContains
  refine List.any_eq_true.2 ⟨(TASKER_TASK_NAME ++ "." ++ s).data, ?_, ?_⟩
  · exact (List.mem_tails _ _).2 (List.suffix_refl _)
  · refine List.isPrefixOf_iff_prefix.2 ?_
    have h1 : (TASKER_TASK_NAME ++ "." ++ s).data =
        TASKER_TASK_NAME.data ++ (".".data ++ s.data) := by
      rw [dom_append_data]
      rw [show (TASKER_TASK_NAME ++ ".").data = TASKER_TASK_NAME.data ++ ".".data from rfl]
      rw [List.append_assoc]
    rw [h1]
    exact List.prefix_append _ _

theorem is_loaded_true_of_entry {label : String} {u : World}
    (he : ∃ e ∈ u.launchd, e.label = label)
    (hdom : strContains label TASKER_TASK_NAME = true) :
    is_loaded label u = true := by
  unfold is_loaded launchctl_list
  obtain ⟨e, hmem, hl⟩ := he
  have hmem2 : liveTaskInfo u e ∈ u.launchd.map (liveTaskInfo u) :=
    List.mem_map_of_mem _ hmem
  have hP : (strContains (liveTaskInfo u e).label label &&
      strContains (liveTaskInfo u e).label TASKER_TASK_NAME) = true := by
    rw [liveTaskInfo_label, hl]
    simp [strContains_self label, hdom]
  obtain ⟨x, hx, hxl⟩ := foldl_insert_has
    (fun t => strContains t.label label && strContains t.label TASKER_TASK_NAME)
    (u.launchd.map (liveTaskInfo u)) []
    (Or.inr ⟨liveTaskInfo u e, hmem2, hP, by rw [liveTaskInfo_label, hl]⟩)
  exact List.any_eq_true.2 ⟨x, hx, by simp [hxl]⟩

theorem from_yaml_label {pc : PathChecks} {doc config : Configuration}
    (h : Configuration.from_yaml pc doc = .ok config) :
    config.label = TASKER_TASK_NAME ++ "." ++ doc.label := by
  unfold Configuration.from_yaml at h
  cases hcl : doc.check_label with
  | error e => rw [hcl] at h; cases h
  | ok d1 =>
    rw [hcl] at h
    obtain ⟨hd1, -⟩ := check_label_ok_eq hcl
    rw [hd1] at h
    have h1 : (match Configuration.check_program pc doc with
        | .error e => (.error e : Except Err Configuration)
        | .ok d2 => buildConfigs pc ⟨(d2.append_domain).label, (d2.append_domain).program, []⟩
            (d2.append_domain).configuration) = .ok config := h
    cases hcp : Configuration.check_program pc doc with
    | error e => rw [hcp] at h1; cases h1
    | ok d2 =>
      rw [hcp] at h1
      have hd2 := check_program_ok_eq hcp
      rw [hd2] at h1
      have h2 : buildConfigs pc ⟨TASKER_TASK_NAME ++ "." ++ doc.label, doc.program, []⟩
          doc.configuration = .ok config := h1
      exact (buildConfigs_fields h2).1


theorem place_plist_and_load_spec {config : Configuration} {u : World}
    (hok : (place_plist_and_load config u).1 = .ok ())
    (hno : ∀ e ∈ u.launchd, e.label ≠ config.label)
    (hdom : strContains config.label TASKER_TASK_NAME = true) :
    (place_plist_and_load config u).2.log = u.log ++ [.loadCall config.label] ∧
    is_loaded config.label (place_plist_and_load config u).2 = true := by
  by_cases hdir : ((try_remove_plist config.label u).dirs.contains plistDir) = true
  case neg =>
    have heq : place_plist_and_load config u =
        (.err .ErrorCreatingPlist, try_remove_plist config.label u) := by
      simp only [place_plist_and_load]
      rw [if_neg hdir]
    rw [heq] at hok
    cases hok
  case pos =>
    obtain ⟨-, -, hlog1, hld1⟩ := try_remove_plist_spec config.label u
    have hld2 : (setFile (get_plist_path config.label) FileData.blob (try_remove_plist config.label u)).launchd = u.launchd := hld1
    have hlog2 : (setFile (get_plist_path config.label) FileData.blob (try_remove_plist config.label u)).log = u.log := hlog1
    have hnl : is_loaded config.label (setFile (get_plist_path config.label) FileData.blob (try_remove_plist config.label u)) = false :=
      is_loaded_false_of_no_entry (fun e he => hno e (hld2 ▸ he))
    have heq : place_plist_and_load config u = load_inner config.label (setFile (get_plist_path config.label) FileData.blob (try_remove_plist config.label u)) := by
      simp only [place_plist_and_load]
      rw [if_pos hdir, hnl, if_neg Bool.false_ne_true]
    rw [heq] at hok ⊢
    cases hex : exist config.label (setFile (get_plist_path config.label) FileData.blob (try_remove_plist config.label u)) with
    | error e =>
      have heq2 : load_inner config.label (setFile (get_plist_path config.label) FileData.blob (try_remove_plist config.label u)) = (.err e, (setFile (get_plist_path config.label) FileData.blob (try_remove_plist config.label u))) := by
        simp [load_inner, hnl, hex]
      rw [heq2] at hok
      cases hok
    | ok b =>
      cases b with
      | false =>
        have heq2 : load_inner config.label (setFile (get_plist_path config.label) FileData.blob (try_remove_plist config.label u)) = (.err .TaskDoesNotExist, (setFile (get_plist_path config.label) FileData.blob (try_remove_plist config.label u))) := by
          simp [load_inner, hnl, hex]
        rw [heq2] at hok
        cases hok
      | true =>
        have heq2 : load_inner config.label (setFile (get_plist_path config.label) FileData.blob (try_remove_plist config.label u)) =
            (.ok (), { (setFile (get_plist_path config.label) FileData.blob (try_remove_plist config.label u)) with
              launchd := (setFile (get_plist_path config.label) FileData.blob (try_remove_plist config.label u)).launchd ++ [⟨none, 0, config.label⟩],
              log := (setFile (get_plist_path config.label) FileData.blob (try_remove_plist config.label u)).log ++ [ExtCall.loadCall config.label] }) := by
          simp [load_inner, hnl, hex]
        rw [heq2]
        constructor
        · show (setFile (get_plist_path config.label) FileData.blob (try_remove_plist config.label u)).log ++ [ExtCall.loadCall config.label] = u.log ++ [.loadCall config.label]
          rw [hlog2]
        · refine is_loaded_true_of_entry ⟨⟨none, 0, config.label⟩, ?_, rfl⟩ hdom
          show (⟨none, 0, config.label⟩ : LiveEntry) ∈
            (setFile (get_plist_path config.label) FileData.blob (try_remove_plist config.label u)).launchd ++ [⟨none, 0, config.label⟩]
          exact List.mem_append_right _ (List.mem_cons_self _ _)

/-- C4: `update_yaml` rejects a document whose (domained) label differs
from the expected label; rejects an unknown label; with the label known
but not loaded it never invokes any external verb and never registers
the job (the registry and call log are untouched — a stopped job is
never started); and with the label loaded a successful update unloads
first and then re-loads, the call log gaining exactly the unload verb
followed by the load verb, leaving the job loaded. -/
theorem C4_update_state_preserving (yaml : Configuration) (this_label : String) (w : World) :
    (∀ config, Configuration.from_yaml (pathChecks w) yaml = .ok config →
      (config.label == this_label) = false →
      update_yaml yaml this_label w = (.err .WrongLabelInYaml, w)) ∧
    (∀ config, Configuration.from_yaml (pathChecks w) yaml = .ok config →
      (config.label == this_label) = true →
      exist config.label w = .ok false →
      update_yaml yaml this_label w = (.err .TaskDoesNotExist, w)) ∧
    (∀ config, Configuration.from_yaml (pathChecks w) yaml = .ok config →
      (config.label == this_label) = true →
      is_loaded config.label w = false →
      (update_yaml yaml this_label w).2.launchd = w.launchd ∧
      (update_yaml yaml this_label w).2.log = w.log) ∧
    (∀ config, Configuration.from_yaml (pathChecks w) yaml = .ok config →
      (config.label == this_label) = true →
      is_loaded config.label w = true →
      (update_yaml yaml this_label w).1 = .ok () →
      (update_yaml yaml this_label w).2.log =
        w.log ++ [.unloadCall config.label, .loadCall config.label] ∧
      is_loaded config.label (update_yaml yaml this_label w).2 = true) := by
  refine ⟨?_, ?_, ?_, ?_⟩
  · intro config hfy hne
    simp [update_yaml, hfy, hne]
  · intro config hfy hbe hex
    simp [update_yaml, hfy, hbe, hex]
  · intro config hfy hbe hl
    cases hex : exist config.label w with
    | error e =>
      have heq : update_yaml yaml this_label w = (.err e, w) := by
        simp [update_yaml, hfy, hbe, hex]
      rw [heq]
      exact ⟨rfl, rfl⟩
    | ok b =>
      cases b with
      | false =>
        have heq : update_yaml yaml this_label w = (.err .TaskDoesNotExist, w) := by
          simp [update_yaml, hfy, hbe, hex]
        rw [heq]
        exact ⟨rfl, rfl⟩
      | true =>
        have heq : update_yaml yaml this_label w =
            (match process_config config w with
             | (.err e, w2) => (.err e, w2)
             | (.panicked, w2) => (.panicked, w2)
             | (.ok _, w2) =>
               match update_yaml_in_meta yaml config.label w2 with
               | (.err e, w3) => (.err e, w3)
               | (.panicked, w3) => (.panicked, w3)
               | (.ok _, w3) => (.ok (), w3)) := by
          simp [update_yaml, hfy, hbe, hex, hl]
        obtain ⟨hp1, hp2⟩ := process_config_ctl config w
        cases hpc : process_config config w with
        | mk r2 w2 =>
          rw [hpc] at hp1 hp2
          cases r2 with
          | err e =>
            have heq2 : update_yaml yaml this_label w = (.err e, w2) := by
              rw [heq, hpc]
            rw [heq2]
            exact ⟨hp1, hp2⟩
          | panicked =>
            have heq2 : update_yaml yaml this_label w = (.panicked, w2) := by
              rw [heq, hpc]
            rw [heq2]
            exact ⟨hp1, hp2⟩
          | ok config2 =>
            obtain ⟨hm1, hm2⟩ := update_yaml_in_meta_ctl yaml config.label w2
            cases hum : update_yaml_in_meta yaml config.label w2 with
            | mk r3 w3 =>
              rw [hum] at hm1 hm2
              have heqA : update_yaml yaml this_label w =
                  (match update_yaml_in_meta yaml config.label w2 with
                   | (.err e, w3) => ((.err e : Outcome Unit), w3)
                   | (.panicked, w3) => (.panicked, w3)
                   | (.ok _, w3) => (.ok (), w3)) := by
                rw [heq, hpc]
              have heq2 : update_yaml yaml this_label w =
                  (match (r3, w3) with
                   | (.err e, w3) => ((.err e : Outcome Unit), w3)
                   | (.panicked, w3) => (.panicked, w3)
                   | (.ok _, w3) => (.ok (), w3)) := by
                rw [heqA, hum]
              cases r3 with
              | err e =>
                rw [show update_yaml yaml this_label w = (.err e, w3) from heq2]
                exact ⟨by rw [hm1, hp1], by rw [hm2, hp2]⟩
              | panicked =>
                rw [show update_yaml yaml this_label w = (.panicked, w3) from heq2]
                exact ⟨by rw [hm1, hp1], by rw [hm2, hp2]⟩
              | ok a =>
                rw [show update_yaml yaml this_label w = (.ok (), w3) from heq2]
                exact ⟨by rw [hm1, hp1], by rw [hm2, hp2]⟩
  · intro config hfy hbe hl hok
    cases hex : exist config.label w with
    | error e =>
      have heq : update_yaml yaml this_label w = (.err e, w) := by
        simp [update_yaml, hfy, hbe, hex]
      rw [heq] at hok
      cases hok
    | ok b =>
      cases b with
      | false =>
        have heq : update_yaml yaml this_label w = (.err .TaskDoesNotExist, w) := by
          simp [update_yaml, hfy, hbe, hex]
        rw [heq] at hok
        cases hok
      | true =>
        have heq : update_yaml yaml this_label w =
            (match process_config config (unload_inner config.label w) with
             | (.err e, w2) => (.err e, w2)
             | (.panicked, w2) => (.panicked, w2)
             | (.ok config2, w2) =>
               match update_yaml_in_meta yaml config.label w2 with
               | (.err e, w3) => (.err e, w3)
               | (.panicked, w3) => (.panicked, w3)
               | (.ok _, w3) => place_plist_and_load config2 w3) := by
          simp [update_yaml, hfy, hbe, hex, hl]
        obtain ⟨hp1, hp2⟩ := process_config_ctl config (unload_inner config.label w)
        cases hpc : process_config config (unload_inner config.label w) with
        | mk r2 w2 =>
          rw [hpc] at hp1 hp2
          cases r2 with
          | err e =>
            rw [show update_yaml yaml this_label w = (.err e, w2) from by rw [heq, hpc]] at hok
            cases hok
          | panicked =>
            rw [show update_yaml yaml this_label w = (.panicked, w2) from by rw [heq, hpc]]
              at hok
            cases hok
          | ok config2 =>
            have hlab : config2.label = config.label := process_config_label hpc
            obtain ⟨hm1, hm2⟩ := update_yaml_in_meta_ctl yaml config.label w2
            cases hum : update_yaml_in_meta yaml config.label w2 with
            | mk r3 w3 =>
              rw [hum] at hm1 hm2
              have heqA : update_yaml yaml this_label w =
                  (match update_yaml_in_meta yaml config.label w2 with
                   | (.err e, w3) => ((.err e : Outcome Unit), w3)
                   | (.panicked, w3) => (.panicked, w3)
                   | (.ok _, w3) => place_plist_and_load config2 w3) := by
                rw [heq, hpc]
              cases r3 with
              | err e =>
                rw [show update_yaml yaml this_label w = (.err e, w3) from by
                  rw [heqA, hum]] at hok
                cases hok
              | panicked =>
                rw [show update_yaml yaml this_label w = (.panicked, w3) from by
                  rw [heqA, hum]] at hok
                cases hok
              | ok a =>
                have heq2 : update_yaml yaml this_label w =
                    place_plist_and_load config2 w3 := by
                  rw [heqA, hum]
                rw [heq2] at hok ⊢
                have hno : ∀ e ∈ w3.launchd, e.label ≠ config2.label := by
                  intro e he
                  rw [hm1, hp1] at he
                  have he2 : e ∈ w.launchd.filter (fun x => x.label ≠ config.label) := he
                  have hne2 := (List.mem_filter.1 he2).2
                  rw [hlab]
                  exact of_decide_eq_true hne2
                have hdom : strContains config2.label TASKER_TASK_NAME = true := by
                  rw [hlab, from_yaml_label hfy]
                  exact strContains_dom yaml.label
                obtain ⟨hs1, hs2⟩ := place_plist_and_load_spec hok hno hdom
                constructor
                · rw [hs1, hm2, hp2]
                  show (w.log ++ [ExtCall.unloadCall config.label]) ++
                    [ExtCall.loadCall config2.label] = _
                  rw [hlab, List.append_assoc]
                  rfl
                · rw [← hlab]
                  exact hs2

/-- Witness for C4 at the concrete fixtures: a wrong expected label is
rejected; updating the not-loaded task touches neither the registry nor
the call log; updating the loaded task logs exactly unload-then-load
and leaves the job loaded. -/
theorem C4_update_state_preserving_witness :
    update_yaml docT "wrong.label" wLoadedW = (.err .WrongLabelInYaml, wLoadedW) ∧
    ((update_yaml docT lblT wUnloadedW).2.launchd = wUnloadedW.launchd ∧
     (update_yaml docT lblT wUnloadedW).2.log = wUnloadedW.log) ∧
    ((update_yaml docT lblT wLoadedW).2.log =
       wLoadedW.log ++ [.unloadCall lblT, .loadCall lblT] ∧
     is_loaded lblT (update_yaml docT lblT wLoadedW).2 = true) := by
  refine ⟨?_, ?_, ?_⟩
  · exact (C4_update_state_preserving docT "wrong.label" wLoadedW).1
      ⟨lblT, "/usr/bin/python", []⟩ (by rfl) (by rfl)
  · exact (C4_update_state_preserving docT lblT wUnloadedW).2.2.1
      ⟨lblT, "/usr/bin/python", []⟩ (by rfl) (by rfl) (by rfl)
  · exact (C4_update_state_preserving docT lblT wLoadedW).2.2.2
      ⟨lblT, "/usr/bin/python", []⟩ (by rfl) (by rfl) (by rfl) (by rfl)

/-! ## C9: the descriptor-write path silently unload-reloads -/

theorem meta_yaml_list_err {pattern : String} {u : World} {e : Err}
    (h : meta_yaml_list pattern u = .error e) : e = .FailedToReadMetaFolder := by
  unfold meta_yaml_list at h
  split at h
  · cases h
  · cases h
    rfl

theorem list_combined_err {pattern : String} {u : World} {e : Err}
    (h : list_combined pattern u = .error e) : e = .FailedToReadMetaFolder := by
  unfold list_combined at h
  cases hm : meta_yaml_list pattern u with
  | error e2 =>
    rw [hm] at h
    have h2 : (Except.error e2 : Except Err (List TaskInfo)) = .error e := h
    cases h2
    exact meta_yaml_list_err hm
  | ok l =>
    rw [hm] at h
    cases h

theorem exist_err {label : String} {u : World} {e : Err}
    (h : exist label u = .error e) : e = .FailedToReadMetaFolder := by
  unfold exist at h
  cases hc : list_combined label u with
  | error e2 =>
    rw [hc] at h
    have h2 : (Except.error e2 : Except Err Bool) = .error e := h
    cases h2
    exact list_combined_err hc
  | ok l =>
    rw [hc] at h
    cases h

theorem load_inner_not_loaded_err {label : String} {u : World}
    (hnl : is_loaded label u = false) :
    (load_inner label u).1 ≠ .err .FailedToLoadTask := by
  unfold load_inner
  rw [hnl, if_neg Bool.false_ne_true]
  cases hex : exist label u with
  | error e =>
    have he := exist_err hex
    subst he
    simp
  | ok b => cases b <;> simp

theorem load_inner_ok_log {label : String} {u : World}
    (hok : (load_inner label u).1 = .ok ()) :
    (load_inner label u).2.log = u.log ++ [ExtCall.loadCall label] := by
  unfold load_inner at hok ⊢
  cases hv : is_loaded label u with
  | true =>
    rw [hv, if_pos rfl] at hok
    cases hok
  | false =>
    rw [hv, if_neg Bool.false_ne_true] at hok
    rw [if_neg Bool.false_ne_true]
    cases hex : exist label u with
    | error e =>
      rw [hex] at hok
      cases hok
    | ok b =>
      cases b with
      | false =>
        rw [hex] at hok
        cases hok
      | true => rfl


theorem place_plist_never_already_loaded (config : Configuration) (u : World) :
    (place_plist_and_load config u).1 ≠ .err .FailedToLoadTask := by
  by_cases hdir : ((try_remove_plist config.label u).dirs.contains plistDir) = true
  case neg =>
    have heq : place_plist_and_load config u =
        (.err .ErrorCreatingPlist, try_remove_plist config.label u) := by
      simp only [place_plist_and_load]
      rw [if_neg hdir]
    rw [heq]
    simp
  case pos =>
    cases hl : is_loaded config.label (setFile (get_plist_path config.label) FileData.blob (try_remove_plist config.label u)) with
    | true =>
      have heq : place_plist_and_load config u =
          load_inner config.label (unload_inner config.label (setFile (get_plist_path config.label) FileData.blob (try_remove_plist config.label u))) := by
        simp only [place_plist_and_load]
        rw [if_pos hdir, hl, if_pos rfl]
      rw [heq]
      refine load_inner_not_loaded_err ?_
      refine is_loaded_false_of_no_entry ?_
      intro e he
      have he2 : e ∈ (setFile (get_plist_path config.label) FileData.blob (try_remove_plist config.label u)).launchd.filter (fun x => x.label ≠ config.label) := he
      exact of_decide_eq_true (List.mem_filter.1 he2).2
    | false =>
      have heq : place_plist_and_load config u = load_inner config.label (setFile (get_plist_path config.label) FileData.blob (try_remove_plist config.label u)) := by
        simp only [place_plist_and_load]
        rw [if_pos hdir, hl, if_neg Bool.false_ne_true]
      rw [heq]
      exact load_inner_not_loaded_err hl

theorem place_plist_loaded_log (config : Configuration) (u : World)
    (hl : is_loaded config.label (setFile (get_plist_path config.label) FileData.blob (try_remove_plist config.label u)) = true)
    (hok : (place_plist_and_load config u).1 = .ok ()) :
    (place_plist_and_load config u).2.log =
      u.log ++ [ExtCall.unloadCall config.label, ExtCall.loadCall config.label] := by
  by_cases hdir : ((try_remove_plist config.label u).dirs.contains plistDir) = true
  case neg =>
    have heq : place_plist_and_load config u =
        (.err .ErrorCreatingPlist, try_remove_plist config.label u) := by
      simp only [place_plist_and_load]
      rw [if_neg hdir]
    rw [heq] at hok
    cases hok
  case pos =>
    obtain ⟨-, -, hlog1, -⟩ := try_remove_plist_spec config.label u
    have heq : place_plist_and_load config u =
        load_inner config.label (unload_inner config.label (setFile (get_plist_path config.label) FileData.blob (try_remove_plist config.label u))) := by
      simp only [place_plist_and_load]
      rw [if_pos hdir, hl, if_pos rfl]
    rw [heq] at hok ⊢
    rw [load_inner_ok_log hok]
    show ((setFile (get_plist_path config.label) FileData.blob (try_remove_plist config.label u)).log ++ [ExtCall.unloadCall config.label]) ++ [ExtCall.loadCall config.label] = _
    have hu : (setFile (get_plist_path config.label) FileData.blob (try_remove_plist config.label u)).log = u.log := hlog1
    rw [hu, List.append_assoc]
    rfl

theorem load_inner_loaded_err (label : String) (u : World)
    (hl : is_loaded label u = true) :
    load_inner label u = (.err .FailedToLoadTask, u) := by
  unfold load_inner
  rw [hl, if_pos rfl]

/-- C9 counterexample: the *standalone public* load operation
(`load_task`, the handler of the server's load command) also goes
through `place_plist_and_load`, so on an already-loaded task it does
not report an error: on the loaded fixture it succeeds and the call log
shows a silent unload-then-reload. -/
theorem C9_public_load_counterexample :
    is_loaded lblT wLoadedW = true ∧
    (load_task lblT wLoadedW).1 = .ok () ∧
    (load_task lblT wLoadedW).2.log = [.unloadCall lblT, .loadCall lblT] :=
  ⟨rfl, rfl, rfl⟩

/-- C9 (amended): the descriptor-write path `place_plist_and_load`
(used by create and update — and also by the public standalone load)
never reports the already-loaded error: a configuration that is loaded
at descriptor-write time is silently unloaded and loaded again, the
call log of a successful call gaining exactly the unload verb followed
by the load verb.  Only the private `load_inner` reports
`FailedToLoadTask` on a loaded label. -/
theorem C9_descriptor_write_silently_reloads :
    (∀ (config : Configuration) (u : World),
      (place_plist_and_load config u).1 ≠ .err .FailedToLoadTask) ∧
    (∀ (config : Configuration) (u : World),
      is_loaded config.label (setFile (get_plist_path config.label) FileData.blob
        (try_remove_plist config.label u)) = true →
      (place_plist_and_load config u).1 = .ok () →
      (place_plist_and_load config u).2.log =
        u.log ++ [ExtCall.unloadCall config.label, ExtCall.loadCall config.label]) ∧
    (∀ (label : String) (u : World),
      is_loaded label u = true → load_inner label u = (.err .FailedToLoadTask, u)) :=
  ⟨place_plist_never_already_loaded,
   fun config u hl hok => place_plist_loaded_log config u hl hok,
   fun label u hl => load_inner_loaded_err label u hl⟩

/-- Witness for the amended C9 on the loaded fixture. -/
theorem C9_descriptor_write_silently_reloads_witness :
    (place_plist_and_load ⟨lblT, "/usr/bin/python", []⟩ wLoadedW).1 ≠
      .err .FailedToLoadTask ∧
    (place_plist_and_load ⟨lblT, "/usr/bin/python", []⟩ wLoadedW).2.log =
      wLoadedW.log ++ [.unloadCall lblT, .loadCall lblT] ∧
    load_inner lblT wLoadedW = (.err .FailedToLoadTask, wLoadedW) := by
  refine ⟨C9_descriptor_write_silently_reloads.1 ⟨lblT, "/usr/bin/python", []⟩ wLoadedW,
    ?_, ?_⟩
  · exact C9_descriptor_write_silently_reloads.2.1 ⟨lblT, "/usr/bin/python", []⟩ wLoadedW
      (by rfl) (by rfl)
  · exact C9_descriptor_write_silently_reloads.2.2 lblT wLoadedW (by rfl)

/-! ## C10: processing guarantees a WorkingDirectory entry -/

theorem process_config_ok_shape {config config' : Configuration} {w w' : World}
    (h : process_config config w = (.ok config', w')) :
    config' = ((replace_task_root_alias (set_working_directory_as_root_alias config)
        config.label w.env).add_config
      (.StandardOutPath (pathToStr (get_output_folder_name w.env config.label ++
        [STD_OUT_FILE])))).add_config
      (.StandardErrorPath (pathToStr (get_output_folder_name w.env config.label ++
        [STD_ERR_FILE]))) := by
  cases htc : try_clear_output config.label w with
  | mk r1 w1 =>
    cases hcd : create_dir_check (get_output_folder_name w.env config.label) w1 with
    | mk r2 w2 =>
      cases hch : chown_by_name_recursive (get_output_folder_name w.env config.label)
          (replace_task_root_alias (set_working_directory_as_root_alias config)
            config.label w.env).get_user_name
          (replace_task_root_alias (set_working_directory_as_root_alias config)
            config.label w.env).get_group_name w2 with
      | mk r3 w3 =>
        cases r1 with
        | panicked =>
          have heq : process_config config w = (.panicked, w1) := by
            simp only [process_config, htc]
          rw [heq] at h
          simp at h
        | ok a =>
          cases r2 with
          | err e =>
            have heq : process_config config w = (.err e, w2) := by
              simp only [process_config, htc, hcd]
            rw [heq] at h
            simp at h
          | panicked =>
            have heq : process_config config w = (.panicked, w2) := by
              simp only [process_config, htc, hcd]
            rw [heq] at h
            simp at h
          | ok b =>
            cases r3 with
            | err e =>
              have heq : process_config config w = (.err e, w3) := by
                simp only [process_config, htc, hcd, hch]
              rw [heq] at h
              simp at h
            | panicked =>
              have heq : process_config config w = (.panicked, w3) := by
                simp only [process_config, htc, hcd, hch]
              rw [heq] at h
              simp at h
            | ok c =>
              have heq : process_config config w =
                  (.ok (((replace_task_root_alias
                      (set_working_directory_as_root_alias config) config.label
                      w.env).add_config
                    (.StandardOutPath (pathToStr (get_output_folder_name w.env config.label ++
                      [STD_OUT_FILE])))).add_config
                    (.StandardErrorPath (pathToStr (get_output_folder_name w.env config.label ++
                      [STD_ERR_FILE])))), w3) := by
                simp only [process_config, htc, hcd, hch]
              rw [heq] at h
              simp only [Prod.mk.injEq, Outcome.ok.injEq] at h
              exact h.1.symm
        | err e =>
          cases r2 with
          | err e2 =>
            have heq : process_config config w = (.err e2, w2) := by
              simp only [process_config, htc, hcd]
            rw [heq] at h
            simp at h
          | panicked =>
            have heq : process_config config w = (.panicked, w2) := by
              simp only [process_config, htc, hcd]
            rw [heq] at h
            simp at h
          | ok b =>
            cases r3 with
            | err e2 =>
              have heq : process_config config w = (.err e2, w3) := by
                simp only [process_config, htc, hcd, hch]
              rw [heq] at h
              simp at h
            | panicked =>
              have heq : process_config config w = (.panicked, w3) := by
                simp only [process_config, htc, hcd, hch]
              rw [heq] at h
              simp at h
            | ok c =>
              have heq : process_config config w =
                  (.ok (((replace_task_root_alias
                      (set_working_directory_as_root_alias config) config.label
                      w.env).add_config
                    (.StandardOutPath (pathToStr (get_output_folder_name w.env config.label ++
                      [STD_OUT_FILE])))).add_config
                    (.StandardErrorPath (pathToStr (get_output_folder_name w.env config.label ++
                      [STD_ERR_FILE])))), w3) := by
                simp only [process_config, htc, hcd, hch]
              rw [heq] at h
              simp only [Prod.mk.injEq, Outcome.ok.injEq] at h
              exact h.1.symm

theorem replaceByKind_mem_of_ne {name : String} {x : Config} :
    ∀ {l l' : List Config}, replaceByKind l name x = some l' →
      ∀ {y : Config}, y ∈ l → y.kindName ≠ name → y ∈ l' := by
  intro l
  induction l with
  | nil =>
    intro l' h
    cases h
  | cons c cs ih =>
    intro l' h y hy hne
    simp only [replaceByKind] at h
    split at h
    · rename_i hck
      cases h
      cases hy with
      | head => exact absurd (by simpa using hck) hne
      | tail _ h2 => exact List.mem_cons_of_mem x h2
    · cases hr : replaceByKind cs name x with
      | some l2 =>
        rw [hr] at h
        have h3 : some (c :: l2) = some l' := h
        cases h3
        cases hy with
        | head => exact List.mem_cons_self _ _
        | tail _ h2 => exact List.mem_cons_of_mem c (ih hr h2 hne)
      | none =>
        rw [hr] at h
        cases h

theorem add_config_mem_of_ne {s : Configuration} {x y : Config}
    (hy : y ∈ s.configuration) (hne : y.kindName ≠ x.kindName) :
    y ∈ (s.add_config x).configuration := by
  unfold Configuration.add_config
  split
  case h_1 l heq => exact replaceByKind_mem_of_ne heq hy hne
  case h_2 heq => exact List.mem_append_left _ hy

theorem add_config_get_ne {s : Configuration} {x : Config} {i : Nat} {y : Config}
    (hy : s.configuration.get? i = some y) (hne : y.kindName ≠ x.kindName) :
    (s.add_config x).configuration.get? i = some y := by
  unfold Configuration.add_config
  split
  case h_1 l heq =>
    cases replaceByKind_get heq i with
    | inl h2 =>
      show l.get? i = some y
      rw [h2, hy]
    | inr h2 =>
      obtain ⟨z, hz, hk, h3⟩ := h2
      rw [hz] at hy
      have h4 : z = y := by
        have h5 : some z = some y := hy
        cases h5
        rfl
      rw [h4] at hk
      exact absurd hk hne
  case h_2 heq =>
    show (s.configuration ++ [x]).get? i = some y
    obtain ⟨hlt, -⟩ := List.get?_eq_some.1 hy
    rw [List.get?_append hlt]
    exact hy

theorem not_wd_kind {y : Config} (h : (match y with
    | Config.WorkingDirectory _ => true
    | _ => false) = false) : y.kindName ≠ "WorkingDirectory" := by
  cases y <;> simp_all [Config.kindName]

theorem wd_of_true {y : Config} (h : (match y with
    | Config.WorkingDirectory _ => true
    | _ => false) = true) : ∃ v, y = Config.WorkingDirectory v := by
  cases y <;> simp_all

theorem strAppend_empty (s : String) : s ++ "" = s := by
  obtain ⟨d⟩ := s
  show String.mk (d ++ []) = String.mk d
  rw [List.append_nil]

theorem replace_root_alias_alias (tf : String) :
    replace_root_alias tf TASK_ROOT_ALIAS = tf ++ "/" := by
  unfold replace_root_alias
  rw [if_pos (by decide), if_neg (by decide)]
  exact strAppend_empty _


/-- C10: a configuration successfully processed by `process_config` (the
create/update pipeline) always carries a `WorkingDirectory` entry: when
the input had none, one is appended holding the root-alias token, which
alias substitution rewrites to the job's absolute task-directory path
(with a trailing slash); an input `WorkingDirectory` entry stays at its
position, its value passed through alias substitution. -/
theorem C10_working_directory_guaranteed
    {config config' : Configuration} {w w' : World}
    (h : process_config config w = (.ok config', w')) :
    (config'.configuration.any (fun c => match c with
      | Config.WorkingDirectory _ => true
      | _ => false)) = true ∧
    ((config.configuration.any (fun c => match c with
        | Config.WorkingDirectory _ => true
        | _ => false)) = false →
      Config.WorkingDirectory ((pathToStr (get_task_folder_name w.env config.label)) ++ "/") ∈ config'.configuration) ∧
    (∀ i v, config.configuration.get? i = some (.WorkingDirectory v) →
      config'.configuration.get? i = some (.WorkingDirectory
        (replace_root_alias (pathToStr (get_task_folder_name w.env config.label)) v))) := by
  have hshape := process_config_ok_shape h
  have hc : ∀ i v, config.configuration.get? i = some (.WorkingDirectory v) →
      config'.configuration.get? i = some (.WorkingDirectory
        (replace_root_alias (pathToStr (get_task_folder_name w.env config.label)) v)) := by
    intro i v hi
    have hany : (config.configuration.any (fun c => match c with
        | Config.WorkingDirectory _ => true
        | _ => false)) = true :=
      List.any_eq_true.2 ⟨Config.WorkingDirectory v, List.get?_mem hi, rfl⟩
    have h1 : set_working_directory_as_root_alias config = config := by
      unfold set_working_directory_as_root_alias
      rw [if_pos hany]
    have h2 : (replace_task_root_alias (set_working_directory_as_root_alias config)
        config.label w.env).configuration.get? i =
        some (Config.WorkingDirectory (replace_root_alias (pathToStr (get_task_folder_name w.env config.label)) v)) := by
      rw [h1]
      show (config.configuration.map (fun conf =>
        match conf with
        | Config.ProgramArguments arguments =>
          Config.ProgramArguments (arguments.map (replace_root_alias (pathToStr (get_task_folder_name w.env config.label))))
        | Config.WorkingDirectory working_directory =>
          Config.WorkingDirectory (replace_root_alias (pathToStr (get_task_folder_name w.env config.label)) working_directory)
        | Config.RootDirectory working_directory =>
          Config.RootDirectory (replace_root_alias (pathToStr (get_task_folder_name w.env config.label)) working_directory)
        | other => other)).get? i =
        some (Config.WorkingDirectory (replace_root_alias
          (pathToStr (get_task_folder_name w.env config.label)) v))
      rw [List.get?_map, hi]
      rfl
    rw [hshape]
    exact add_config_get_ne (add_config_get_ne h2 (by simp [Config.kindName]))
      (by simp [Config.kindName])
  have hb : (config.configuration.any (fun c => match c with
      | Config.WorkingDirectory _ => true
      | _ => false)) = false →
      Config.WorkingDirectory ((pathToStr (get_task_folder_name w.env config.label)) ++ "/") ∈ config'.configuration := by
    intro hnone
    have hne1 : ∀ y ∈ config.configuration,
        y.kindName ≠ (Config.WorkingDirectory TASK_ROOT_ALIAS).kindName := by
      intro y hy
      have hyf := List.any_eq_false.1 hnone y hy
      exact not_wd_kind (by simpa using hyf)
    have h1 : set_working_directory_as_root_alias config =
        { config with configuration :=
          config.configuration ++ [Config.WorkingDirectory TASK_ROOT_ALIAS] } := by
      unfold set_working_directory_as_root_alias
      rw [if_neg (by rw [hnone]; exact Bool.false_ne_true)]
      exact add_config_append hne1
    have h2 : Config.WorkingDirectory ((pathToStr (get_task_folder_name w.env config.label)) ++ "/") ∈
        (replace_task_root_alias (set_working_directory_as_root_alias config)
          config.label w.env).configuration := by
      rw [h1]
      show Config.WorkingDirectory ((pathToStr (get_task_folder_name w.env config.label)) ++ "/") ∈
        ((config.configuration ++ [Config.WorkingDirectory TASK_ROOT_ALIAS]).map (fun conf =>
        match conf with
        | Config.ProgramArguments arguments =>
          Config.ProgramArguments (arguments.map (replace_root_alias (pathToStr (get_task_folder_name w.env config.label))))
        | Config.WorkingDirectory working_directory =>
          Config.WorkingDirectory (replace_root_alias (pathToStr (get_task_folder_name w.env config.label)) working_directory)
        | Config.RootDirectory working_directory =>
          Config.RootDirectory (replace_root_alias (pathToStr (get_task_folder_name w.env config.label)) working_directory)
        | other => other))
      rw [List.map_append]
      refine List.mem_append_right _ ?_
      show Config.WorkingDirectory ((pathToStr (get_task_folder_name w.env config.label)) ++ "/") ∈
        [Config.WorkingDirectory (replace_root_alias (pathToStr (get_task_folder_name w.env config.label)) TASK_ROOT_ALIAS)]
      rw [replace_root_alias_alias]
      exact List.mem_cons_self _ _
    rw [hshape]
    exact add_config_mem_of_ne (add_config_mem_of_ne h2 (by simp [Config.kindName]))
      (by simp [Config.kindName])
  refine ⟨?_, hb, hc⟩
  cases hin : (config.configuration.any (fun c => match c with
      | Config.WorkingDirectory _ => true
      | _ => false)) with
  | false => exact List.any_eq_true.2 ⟨_, hb hin, rfl⟩
  | true =>
    obtain ⟨y, hy, hyw⟩ := List.any_eq_true.1 hin
    obtain ⟨v, rfl⟩ := wd_of_true (by simpa using hyw)
    obtain ⟨i, hi⟩ := List.mem_iff_get?.1 hy
    have h2 := hc i v hi
    exact List.any_eq_true.2 ⟨_, List.get?_mem h2, rfl⟩

/-- Witness for C10 on the loaded fixture: with no input
`WorkingDirectory` the processed configuration gains one holding the
task folder path; an input `WorkingDirectory "/x"` stays at index 0. -/
theorem C10_working_directory_guaranteed_witness :
    process_config (⟨lblT, "/usr/bin/python", []⟩ : Configuration) wLoadedW =
      (.ok ⟨lblT, "/usr/bin/python",
        [.WorkingDirectory "/r/tasks/com.tasker.tasks.t/",
         .StandardOutPath "/r/out/com.tasker.tasks.t/stdout.log",
         .StandardErrorPath "/r/out/com.tasker.tasks.t/stderr.log"]⟩,
       (process_config (⟨lblT, "/usr/bin/python", []⟩ : Configuration) wLoadedW).2) ∧
    Config.WorkingDirectory "/r/tasks/com.tasker.tasks.t/" ∈
      [Config.WorkingDirectory "/r/tasks/com.tasker.tasks.t/",
       Config.StandardOutPath "/r/out/com.tasker.tasks.t/stdout.log",
       Config.StandardErrorPath "/r/out/com.tasker.tasks.t/stderr.log"] ∧
    ([Config.WorkingDirectory "/x",
      Config.StandardOutPath "/r/out/com.tasker.tasks.t/stdout.log",
      Config.StandardErrorPath "/r/out/com.tasker.tasks.t/stderr.log"].get? 0 =
      some (Config.WorkingDirectory "/x")) := by
  refine ⟨by rfl, ?_, ?_⟩
  · exact (C10_working_directory_guaranteed (by rfl : process_config
      (⟨lblT, "/usr/bin/python", []⟩ : Configuration) wLoadedW =
      (.ok ⟨lblT, "/usr/bin/python",
        [.WorkingDirectory "/r/tasks/com.tasker.tasks.t/",
         .StandardOutPath "/r/out/com.tasker.tasks.t/stdout.log",
         .StandardErrorPath "/r/out/com.tasker.tasks.t/stderr.log"]⟩,
       (process_config (⟨lblT, "/usr/bin/python", []⟩ : Configuration) wLoadedW).2))).2.1
      (by rfl)
  · exact (C10_working_directory_guaranteed (by rfl : process_config
      (⟨lblT, "/usr/bin/python", [Config.WorkingDirectory "/x"]⟩ : Configuration) wLoadedW =
      (.ok ⟨lblT, "/usr/bin/python",
        [.WorkingDirectory "/x",
         .StandardOutPath "/r/out/com.tasker.tasks.t/stdout.log",
         .StandardErrorPath "/r/out/com.tasker.tasks.t/stderr.log"]⟩,
       (process_config (⟨lblT, "/usr/bin/python",
         [Config.WorkingDirectory "/x"]⟩ : Configuration) wLoadedW).2))).2.2
      0 "/x" (by rfl)

/-! ## C6: the combined listing is a sorted, duplicate-free merge -/

theorem charsLt_irrefl : ∀ (a : List Char), charsLt a a = false := by
  intro a
  induction a with
  | nil => rfl
  | cons c cs ih =>
    unfold charsLt
    rw [if_neg (lt_irrefl c), if_neg (lt_irrefl c)]
    exact ih

theorem charsLt_trans : ∀ {a b c : List Char},
    charsLt a b = true → charsLt b c = true → charsLt a c = true := by
  intro a
  induction a with
  | nil =>
    intro b c hab hbc
    cases b with
    | nil => cases hab
    | cons bh tb =>
      cases c with
      | nil => cases hbc
      | cons ch tc => rfl
  | cons ah ta ih =>
    intro b c hab hbc
    cases b with
    | nil => cases hab
    | cons bh tb =>
      cases c with
      | nil => cases hbc
      | cons ch tc =>
        unfold charsLt at hab hbc ⊢
        by_cases h1 : ah < bh
        · rw [if_pos h1] at hab
          by_cases h2 : bh < ch
          · rw [if_pos (lt_trans h1 h2)]
          · rw [if_neg h2] at hbc
            by_cases h3 : ch < bh
            · rw [if_pos h3] at hbc
              cases hbc
            · have he : bh = ch := le_antisymm (not_lt.1 h3) (not_lt.1 h2)
              rw [if_pos (show ah < ch from he ▸ h1)]
        · rw [if_neg h1] at hab
          by_cases h4 : bh < ah
          · rw [if_pos h4] at hab
            cases hab
          · rw [if_neg h4] at hab
            have he1 : ah = bh := le_antisymm (not_lt.1 h4) (not_lt.1 h1)
            by_cases h2 : bh < ch
            · rw [if_pos (show ah < ch from he1 ▸ h2)]
            · rw [if_neg h2] at hbc
              by_cases h3 : ch < bh
              · rw [if_pos h3] at hbc
                cases hbc
              · have he2 : bh = ch := le_antisymm (not_lt.1 h3) (not_lt.1 h2)
                rw [if_neg h3] at hbc
                rw [if_neg (show ¬ ah < ch from by rw [he1, he2]; exact lt_irrefl ch),
                  if_neg (show ¬ ch < ah from by rw [he1, he2]; exact lt_irrefl ch)]
                exact ih hab hbc

theorem charsLt_connex : ∀ {a b : List Char},
    charsLt a b = false → charsLt b a = false → a = b := by
  intro a
  induction a with
  | nil =>
    intro b hab hba
    cases b with
    | nil => rfl
    | cons bh tb => cases hab
  | cons ah ta ih =>
    intro b hab hba
    cases b with
    | nil => cases hba
    | cons bh tb =>
      unfold charsLt at hab hba
      by_cases h1 : ah < bh
      · rw [if_pos h1] at hab
        cases hab
      · by_cases h2 : bh < ah
        · rw [if_pos h2] at hba
          cases hba
        · rw [if_neg h1, if_neg h2] at hab
          rw [if_neg h2, if_neg h1] at hba
          have he : ah = bh := le_antisymm (not_lt.1 h2) (not_lt.1 h1)
          rw [he, ih hab hba]

theorem strLt_irrefl (a : String) : strLt a a = false := charsLt_irrefl a.data

theorem strLt_trans {a b c : String} (hab : strLt a b = true) (hbc : strLt b c = true) :
    strLt a c = true := charsLt_trans hab hbc

theorem strLt_connex {a b : String} (hab : strLt a b = false) (hba : strLt b a = false) :
    a = b := by
  obtain ⟨da⟩ := a
  obtain ⟨db⟩ := b
  have h2 : da = db := charsLt_connex hab hba
  rw [h2]

theorem insertTask_sorted (t : TaskInfo) :
    ∀ (s : List TaskInfo),
      s.Pairwise (fun a b => strLt a.label b.label = true) →
      (insertTask t s).Pairwise (fun a b => strLt a.label b.label = true) := by
  intro s
  induction s with
  | nil =>
    intro hs
    unfold insertTask
    exact List.pairwise_singleton _ _
  | cons x xs ih =>
    intro hs
    obtain ⟨hx, hxs⟩ := List.pairwise_cons.1 hs
    unfold insertTask
    split
    · rename_i hlt
      refine List.pairwise_cons.2 ⟨?_, hs⟩
      intro b hb
      cases hb with
      | head => exact hlt
      | tail _ hb2 => exact strLt_trans hlt (hx b hb2)
    · split
      · exact hs
      · rename_i hlt hbe
        refine List.pairwise_cons.2 ⟨?_, ih hxs⟩
        intro b hb
        cases insertTask_mem t xs hb with
        | inl he =>
          rw [he]
          cases hv2 : strLt x.label t.label with
          | true => rfl
          | false =>
            have h1 : strLt t.label x.label = false := by
              cases hv : strLt t.label x.label
              · rfl
              · exact absurd hv hlt
            have heq := strLt_connex hv2 h1
            exact absurd (by simp [heq]) hbe
        | inr hm => exact hx b hm

theorem foldl_insert_sorted (P : TaskInfo → Bool) :
    ∀ (l init : List TaskInfo),
      init.Pairwise (fun a b => strLt a.label b.label = true) →
      (l.foldl (fun s t => if P t then insertTask t s else s) init).Pairwise
        (fun a b => strLt a.label b.label = true) := by
  intro l
  induction l with
  | nil => intro init h; exact h
  | cons a as ih =>
    intro init h
    rw [List.foldl_cons]
    by_cases hp : P a = true
    · rw [if_pos hp]
      exact ih _ (insertTask_sorted a init h)
    · rw [if_neg hp]
      exact ih init h

theorem launchctl_list_sorted (pattern : String) (w : World) :
    (launchctl_list pattern w).Pairwise (fun a b => strLt a.label b.label = true) := by
  unfold launchctl_list
  exact foldl_insert_sorted _ _ [] List.Pairwise.nil

theorem foldl_guard_sorted :
    ∀ (l init : List TaskInfo),
      init.Pairwise (fun a b => strLt a.label b.label = true) →
      (l.foldl (fun s t => if s.any (fun x => x.label == t.label) then s
        else insertTask t s) init).Pairwise (fun a b => strLt a.label b.label = true) := by
  intro l
  induction l with
  | nil => intro init h; exact h
  | cons a as ih =>
    intro init h
    rw [List.foldl_cons]
    by_cases hg : (init.any (fun x => x.label == a.label)) = true
    · rw [if_pos hg]
      exact ih init h
    · rw [if_neg hg]
      exact ih _ (insertTask_sorted a init h)

theorem foldl_guard_mono :
    ∀ (l init : List TaskInfo) {x : TaskInfo}, x ∈ init →
      x ∈ l.foldl (fun s t => if s.any (fun y => y.label == t.label) then s
        else insertTask t s) init := by
  intro l
  induction l with
  | nil => intro init x h; exact h
  | cons a as ih =>
    intro init x h
    rw [List.foldl_cons]
    by_cases hg : (init.any (fun y => y.label == a.label)) = true
    · rw [if_pos hg]
      exact ih init h
    · rw [if_neg hg]
      exact ih _ (insertTask_subset a init h)

theorem foldl_guard_mem :
    ∀ (l init : List TaskInfo) {x : TaskInfo},
      x ∈ l.foldl (fun s t => if s.any (fun y => y.label == t.label) then s
        else insertTask t s) init → x ∈ init ∨ x ∈ l := by
  intro l
  induction l with
  | nil => intro init x h; exact Or.inl h
  | cons a as ih =>
    intro init x h
    rw [List.foldl_cons] at h
    by_cases hg : (init.any (fun y => y.label == a.label)) = true
    · rw [if_pos hg] at h
      cases ih init h with
      | inl h2 => exact Or.inl h2
      | inr h2 => exact Or.inr (List.mem_cons_of_mem a h2)
    · rw [if_neg hg] at h
      cases ih _ h with
      | inl h2 =>
        cases insertTask_mem a init h2 with
        | inl h3 => exact Or.inr (h3 ▸ List.mem_cons_self a as)
        | inr h3 => exact Or.inl h3
      | inr h2 => exact Or.inr (List.mem_cons_of_mem a h2)

theorem foldl_guard_label :
    ∀ (l init : List TaskInfo) {m : TaskInfo}, m ∈ l →
      ∃ t ∈ l.foldl (fun s t => if s.any (fun y => y.label == t.label) then s
        else insertTask t s) init, t.label = m.label := by
  intro l
  induction l with
  | nil =>
    intro init m h
    cases h
  | cons a as ih =>
    intro init m hm
    rw [List.foldl_cons]
    cases hm with
    | head =>
      by_cases hg : (init.any (fun y => y.label == a.label)) = true
      · rw [if_pos hg]
        obtain ⟨x, hx, hxl⟩ := List.any_eq_true.1 hg
        exact ⟨x, foldl_guard_mono as init hx, by simpa using hxl⟩
      · rw [if_neg hg]
        obtain ⟨x, hx, hxl⟩ := insertTask_label a init
        exact ⟨x, foldl_guard_mono as _ hx, hxl⟩
    | tail _ hm2 =>
      by_cases hg : (init.any (fun y => y.label == a.label)) = true
      · rw [if_pos hg]
        exact ih init hm2
      · rw [if_neg hg]
        exact ih _ hm2

theorem meta_fold_mem (g : List TaskInfo → Path → List TaskInfo)
    (hg : ∀ (acc : List TaskInfo) (f : Path), ∀ m ∈ g acc f,
      m ∈ acc ∨ m.status = Status.UNLOADED) :
    ∀ (fs : List Path) (acc : List TaskInfo), ∀ m ∈ fs.foldl g acc,
      m ∈ acc ∨ m.status = Status.UNLOADED := by
  intro fs
  induction fs with
  | nil =>
    intro acc m hm
    exact Or.inl hm
  | cons f fs2 ih =>
    intro acc m hm
    rw [List.foldl_cons] at hm
    cases ih (g acc f) m hm with
    | inl h2 => exact hg acc f m h2
    | inr h2 => exact Or.inr h2

theorem meta_step_unloaded (pattern : String) :
    ∀ (acc : List TaskInfo) (f : Path), ∀ m ∈ ((fun acc f =>
      match List.getLast? f with
      | some name =>
        if yamlFileName name && strContains name pattern &&
            strContains name TASKER_TASK_NAME
        then acc ++ [TaskInfo.from_just_label (yamlStem name)]
        else acc
      | none => acc) : List TaskInfo → Path → List TaskInfo) acc f,
      m ∈ acc ∨ m.status = Status.UNLOADED := by
  intro acc f m hm
  have hm2 : m ∈ (match List.getLast? f with
      | some name =>
        if yamlFileName name && strContains name pattern &&
            strContains name TASKER_TASK_NAME
        then acc ++ [TaskInfo.from_just_label (yamlStem name)]
        else acc
      | none => acc) := hm
  cases hg : List.getLast? f with
  | none =>
    rw [hg] at hm2
    exact Or.inl hm2
  | some name =>
    rw [hg] at hm2
    have hm3 : m ∈ (if yamlFileName name && strContains name pattern &&
        strContains name TASKER_TASK_NAME
      then acc ++ [TaskInfo.from_just_label (yamlStem name)]
      else acc) := hm2
    by_cases hc : (yamlFileName name && strContains name pattern &&
        strContains name TASKER_TASK_NAME) = true
    · rw [if_pos hc] at hm3
      cases List.mem_append.1 hm3 with
      | inl h2 => exact Or.inl h2
      | inr h2 =>
        cases h2 with
        | head => exact Or.inr rfl
        | tail _ h3 => cases h3
    · rw [if_neg hc] at hm3
      exact Or.inl hm3

theorem meta_yaml_list_unloaded {pattern : String} {w : World} {ml : List TaskInfo}
    (h : meta_yaml_list pattern w = .ok ml) : ∀ m ∈ ml, m.status = Status.UNLOADED := by
  unfold meta_yaml_list at h
  split at h
  · cases h
    intro m hm
    cases meta_fold_mem _ (meta_step_unloaded pattern) _ [] m hm with
    | inl h2 => cases h2
    | inr h2 => exact h2
  · cases h

/-- C6: the combined listing merges the live records with the
inventory-only records (the latter surfacing as UNLOADED), keyed by
label with live records taking precedence (every live record is in the
result unchanged); the result is strictly label-sorted, hence free of
duplicate labels, and every inventory record's label is represented. -/
theorem C6_list_combined_merge {pattern : String} {w : World} {l : List TaskInfo}
    (h : list_combined pattern w = .ok l) :
    l.Pairwise (fun a b => strLt a.label b.label = true) ∧
    l.Pairwise (fun a b => a.label ≠ b.label) ∧
    (∀ t ∈ launchctl_list pattern w, t ∈ l) ∧
    (∀ t ∈ l, t ∈ launchctl_list pattern w ∨ t.status = Status.UNLOADED) ∧
    (∀ ml, meta_yaml_list pattern w = .ok ml →
      ∀ m ∈ ml, ∃ t ∈ l, t.label = m.label) := by
  unfold list_combined at h
  cases hm : meta_yaml_list pattern w with
  | error e =>
    rw [hm] at h
    cases h
  | ok ml =>
    rw [hm] at h
    have h2 : Except.ok (ml.foldl (fun s t => if s.any (fun x => x.label == t.label)
        then s else insertTask t s) (launchctl_list pattern w)) = .ok l := h
    cases h2
    refine ⟨?_, ?_, ?_, ?_, ?_⟩
    · exact foldl_guard_sorted ml _ (launchctl_list_sorted pattern w)
    · refine List.Pairwise.imp ?_
        (foldl_guard_sorted ml _ (launchctl_list_sorted pattern w))
      intro a b hab heq
      rw [heq, strLt_irrefl] at hab
      cases hab
    · intro t ht
      exact foldl_guard_mono ml _ ht
    · intro t ht
      cases foldl_guard_mem ml _ ht with
      | inl h3 => exact Or.inl h3
      | inr h3 => exact Or.inr (meta_yaml_list_unloaded hm t h3)
    · intro ml2 hml2 m hmm
      have h3 : ml = ml2 := by
        cases hml2
        rfl
      rw [← h3] at hmm
      exact foldl_guard_label ml _ hmm

/-- Witness for C6 on the merge fixture: one live running job `…b` and
one inventory-only yaml `…a` merge into the label-sorted duplicate-free
listing `[a UNLOADED, b RUNNING]` containing the live record. -/
theorem C6_list_combined_merge_witness :
    list_combined "" wMergeW = .ok
      [⟨none, none, "com.tasker.tasks.a", .UNLOADED⟩,
       ⟨some 5, some 0, "com.tasker.tasks.b", .RUNNING⟩] ∧
    ([⟨none, none, "com.tasker.tasks.a", .UNLOADED⟩,
      (⟨some 5, some 0, "com.tasker.tasks.b", .RUNNING⟩ : TaskInfo)] :
        List TaskInfo).Pairwise (fun a b => strLt a.label b.label = true) ∧
    (∀ t ∈ launchctl_list "" wMergeW,
      t ∈ ([⟨none, none, "com.tasker.tasks.a", .UNLOADED⟩,
        (⟨some 5, some 0, "com.tasker.tasks.b", .RUNNING⟩ : TaskInfo)] :
          List TaskInfo)) := by
  have h := @C6_list_combined_merge "" wMergeW
    [⟨none, none, "com.tasker.tasks.a", .UNLOADED⟩,
     ⟨some 5, some 0, "com.tasker.tasks.b", .RUNNING⟩] (by rfl)
  exact ⟨by rfl, h.1, h.2.2.1⟩

/-! ## C7: the per-line status ladder, and the unwrap panic -/

/-- C7 counterexample: a listing line whose pid column is `-` (no pid)
and whose exit-status column is not an integer does not produce a
`TaskInfo` at all: `from_line` calls `last_exit_status.unwrap()` on a
`None` and panics (modelled as `none`), so "for every line ... parsing
yields a TaskInfo whose status is ..." fails on such a line. -/
theorem C7_unwrap_panic_counterexample :
    TaskInfo.from_line wEmptyW "- x com.tasker.tasks.a" = none := rfl

/-- C7 (amended): for a line whose pid column parses, the record is
RUNNING; with no pid and a parsed exit status `v`, the record's status
follows the ladder — ERROR when `v ≠ 0`, else LOADED while the job's
`stdout.log` does not exist, else NORMAL; and with no pid and an
unparsable exit status the source panics instead of producing a record. -/
theorem C7_status_ladder (w : World) (line : String) :
    (∀ p, parseI32 ((rustWords line).getD 0 "-") = some p →
      TaskInfo.from_line w line = some ⟨some p, parseI32 ((rustWords line).getD 1 "0"),
        (rustWords line).getD 2 "", .RUNNING⟩) ∧
    (∀ v, parseI32 ((rustWords line).getD 0 "-") = none →
      parseI32 ((rustWords line).getD 1 "0") = some v →
      TaskInfo.from_line w line = some ⟨none, some v, (rustWords line).getD 2 "",
        statusLadder w none v ((rustWords line).getD 2 "")⟩) ∧
    (parseI32 ((rustWords line).getD 0 "-") = none →
      parseI32 ((rustWords line).getD 1 "0") = none →
      TaskInfo.from_line w line = none) ∧
    (∀ (v : Int) (label : String), v ≠ 0 → statusLadder w none v label = .ERROR) ∧
    (∀ label : String,
      metadataOk (get_output_folder_name w.env label ++ [STD_OUT_FILE]) w = false →
      statusLadder w none 0 label = .LOADED) ∧
    (∀ label : String,
      metadataOk (get_output_folder_name w.env label ++ [STD_OUT_FILE]) w = true →
      statusLadder w none 0 label = .NORMAL) := by
  refine ⟨?_, ?_, ?_, ?_, ?_, ?_⟩
  · intro p hp
    simp only [TaskInfo.from_line, hp]
  · intro v hp0 hp1
    simp only [TaskInfo.from_line, hp0, hp1]
  · intro hp0 hp1
    simp only [TaskInfo.from_line, hp0, hp1]
  · intro v label hv
    unfold statusLadder
    rw [if_neg (by simp), if_pos hv]
  · intro label hm
    unfold statusLadder
    rw [if_neg (by simp), if_neg (by simp), hm]
    rfl
  · intro label hm
    unfold statusLadder
    rw [if_neg (by simp), if_neg (by simp), hm]
    rfl

/-- Witness for the amended C7: a pid line is RUNNING; exit status 1 is
ERROR; exit status 0 is LOADED while `stdout.log` is absent and NORMAL
once it exists. -/
theorem C7_status_ladder_witness :
    TaskInfo.from_line wEmptyW "5 0 com.tasker.tasks.x" =
      some ⟨some 5, some 0, "com.tasker.tasks.x", .RUNNING⟩ ∧
    statusLadder wEmptyW none 1 "com.tasker.tasks.x" = .ERROR ∧
    statusLadder wEmptyW none 0 "com.tasker.tasks.x" = .LOADED ∧
    statusLadder wDelW none 0 lblD = .NORMAL := by
  refine ⟨?_, ?_, ?_, ?_⟩
  · exact (C7_status_ladder wEmptyW "5 0 com.tasker.tasks.x").1 5 (by rfl)
  · exact (C7_status_ladder wEmptyW "").2.2.2.1 1 "com.tasker.tasks.x" (by decide)
  · exact (C7_status_ladder wEmptyW "").2.2.2.2.1 "com.tasker.tasks.x" (by rfl)
  · exact (C7_status_ladder wDelW "").2.2.2.2.2 lblD (by rfl)

end Tasker
